import Mathlib

/-!
Verification development for the synchronization core of `scli`
(`src/scli/__init__.py`): a shallow embedding, in Lean 4, of the
per-conversation sorted message store (`Chat` / `ReorderedTimestamps`),
the delivery-status aggregator (`DeliveryStatus`), the bounded background
process queue with scoped completion callbacks (`AsyncProc` / `AsyncQueued`
/ `AsyncContext`), and the send-command output classifier
(`Daemon._parse_send_proc_output`), together with theorems settling the
specification claims about them.

Modelling conventions:
- Python dicts become ordered association lists (insertion order kept);
  Python sets of contact ids become `Finset String` except where the
  source iterates a set, in which case a duplicate-free `List String`
  in insertion order is used.
- Timestamps (milliseconds) are `Nat`.
- Python's falsy-coalescing `x or y` is modelled explicitly (`none` and
  `0` both fall through).
- Code that raises an exception which its in-repo callers do not catch is
  modelled with optional results (`none` / `.exn` = the exception escapes).
- Recursions that the source bounds by a loop variable are written with an
  explicit structural fuel argument so every definition stays
  kernel-computable; the fuel is always instantiated with a proven-sufficient
  bound.
-/

/-! ## Envelope and Message (src/scli/__init__.py, data helpers and Message) -/

/-- Model of the `dataMessage` sub-dictionary of an envelope; only the fields
the verified components read are kept. -/
structure DataMessage where
  message : Option String := none
  timestamp : Option Nat := none
  /-- `groupInfo.groupId`, when a `groupInfo` dict is present. -/
  groupId : Option String := none
deriving DecidableEq, Repr, Inhabited

/-- Model of one decoded daemon event record (a Python dict). Only fields the
verified components consume are kept; `receivedTimestamp` is the
`_received_timestamp` key set on local receipt. -/
structure Envelope where
  source : String
  target : Option String := none
  timestamp : Nat := 0
  dataMessage : Option DataMessage := none
  receivedTimestamp : Option Nat := none
  /-- `typingMessage.groupId`, when present. -/
  typingGroupId : Option String := none
deriving DecidableEq, Repr, Inhabited

/-- `is_number`: matches `PHONE_NUM_REGEX = ^\+[1-9][0-9]{6,14}$`. -/
def is_number (number : String) : Bool :=
  let cs := number.toList
  match cs with
  | '+' :: d :: rest =>
      d ≠ '0' ∧ d.isDigit ∧ rest.all Char.isDigit ∧ 6 ≤ rest.length ∧ rest.length ≤ 14
  | _ => false

/-- `get_envelope_time`: `envelope['timestamp'] or dataMessage['timestamp']`
(Python `or`: a `0` top-level timestamp falls through to the data message's;
the `syncMessage.sentMessage` fallback of `get_envelope_data_val` is dropped
because sync wrappers are outside the verified components). -/
def get_envelope_time (e : Envelope) : Nat :=
  if e.timestamp ≠ 0 then e.timestamp
  else (e.dataMessage.bind DataMessage.timestamp).getD 0

/-- `get_envelope_sender_id`: `envelope['source']`. -/
def get_envelope_sender_id (e : Envelope) : String :=
  e.source

/-- `is_envelope_group_message`: a `groupInfo` is present, or a `target` that is
not a phone number, or a `typingMessage.groupId`. -/
def is_envelope_group_message (e : Envelope) : Bool :=
  (e.dataMessage.bind DataMessage.groupId).isSome
  || (match e.target with | some t => ¬ is_number t | none => false)
  || e.typingGroupId.isSome

/-- `Message`: a handle over one envelope plus reaction / remote-delete side
tables (`__slots__ = ("envelope", "reactions", "remote_delete")`). -/
structure Message where
  envelope : Envelope
  reactions : List (String × Envelope) := []
  remote_delete : Option Envelope := none
deriving DecidableEq, Repr, Inhabited

/-- `Message.__eq__`: `self.envelope == other_msg.envelope` — full dictionary
equality of the two envelopes (all fields). -/
def Message.pyEq (m1 m2 : Message) : Bool :=
  m1.envelope = m2.envelope

/-- `Message.timestamp` property: `get_envelope_time(self.envelope)`. -/
def Message.timestamp (m : Message) : Nat :=
  get_envelope_time m.envelope

/-- `Message.sender_num` property: `get_envelope_sender_id(self.envelope)`. -/
def Message.sender_num (m : Message) : String :=
  get_envelope_sender_id m.envelope

/-- `Message.local_timestamp` property:
`self.envelope.get('_received_timestamp') or self.timestamp` (Python `or`:
an absent or `0` received timestamp falls back to the sender timestamp).
This is the ordering key of the conversation store. -/
def Message.local_timestamp (m : Message) : Nat :=
  match m.envelope.receivedTimestamp with
  | some r => if r ≠ 0 then r else m.timestamp
  | none => m.timestamp

/-- Placeholder used where the source indexes a list position that is known to
be in range (`l[i]` after a bounds check). -/
def dummyMsg : Message :=
  { envelope := { source := "" } }

/-! ## Python list / dict helpers -/

/-- Python list indexing with negative-index wraparound; `none` models an
`IndexError`. -/
def pyGetMsg (l : List Message) (i : Int) : Option Message :=
  let j : Int := if 0 ≤ i then i else i + l.length
  if h : 0 ≤ j ∧ j.toNat < l.length then some (l.get ⟨j.toNat, h.2⟩) else none

/-- Python `list.insert(i, x)` for `0 ≤ i ≤ len(l)`. -/
def pyInsertAt (l : List Message) (i : Nat) (x : Message) : List Message :=
  l.take i ++ x :: l.drop i

/-- Python `del l[i]` for `0 ≤ i < len(l)`. -/
def pyDelAt (l : List Message) (i : Nat) : List Message :=
  l.take i ++ l.drop (i + 1)

/-- Key of the `_reordered_timestamps` dict: `(sender_num, original timestamp)`.
The sender component is `Option String` because `index_ts` may look keys up
with `sender_num = None`. -/
abbrev RKey : Type := Option String × Nat

/-- The `_reordered_timestamps` dict, as an insertion-ordered association
list. -/
abbrev RMap : Type := List (RKey × Nat)

/-- Dict lookup (`d.get(k)`). -/
def rmapGet (m : RMap) (k : RKey) : Option Nat :=
  (m.find? (fun p => p.1 = k)).map (·.2)

/-- Dict store (`d[k] = v`): overwrite in place or append. -/
def rmapSet (m : RMap) (k : RKey) (v : Nat) : RMap :=
  if (m.find? (fun p => p.1 = k)).isSome then
    m.map (fun p => if p.1 = k then (k, v) else p)
  else m ++ [(k, v)]

/-- Dict delete (`d.pop(k, None)` / `del d[k]` with the `KeyError`
suppressed separately by the caller). -/
def rmapErase (m : RMap) (k : RKey) : RMap :=
  m.filter (fun p => ¬ p.1 = k)

/-! ## The conversation store: `ReorderedTimestamps` and `Chat` -/

/-- State of one `Chat`: the sorted message list together with its
`_reordered_timestamps` correction index. -/
structure ChatState where
  msgs : List Message
  reordered : RMap
deriving DecidableEq, Repr, Inhabited

/-- The empty conversation store. -/
def emptyChat : ChatState :=
  { msgs := [], reordered := [] }

/-- `bisect.bisect_right(self, x)` over messages compared by `__lt__`
(`local_timestamp`): binary search exactly as in CPython's `bisect`. The
`fuel` argument (any bound on the recursion depth, consumed structurally so
that the definition stays kernel-computable) does not affect the result as
long as `hi - lo ≤ fuel`. -/
def bisect_rightF (l : List Message) (x : Message) : Nat → Nat → Nat → Nat
  | 0, lo, _hi => lo
  | fuel + 1, lo, hi =>
    if lo < hi then
      if x.local_timestamp < (l.getD ((lo + hi) / 2) dummyMsg).local_timestamp then
        bisect_rightF l x fuel lo ((lo + hi) / 2)
      else
        bisect_rightF l x fuel ((lo + hi) / 2 + 1) hi
    else lo

/-- `bisect.bisect_right(self, x)` with the default bounds `(0, len(self))`. -/
def bisect_right (l : List Message) (x : Message) (lo hi : Nat) : Nat :=
  bisect_rightF l x (hi - lo) lo hi

/-- `bisect.bisect_left(self, x)` over messages compared by `__lt__`
(`local_timestamp`), fuelled like `bisect_rightF`. -/
def bisect_leftF (l : List Message) (x : Message) : Nat → Nat → Nat → Nat
  | 0, lo, _hi => lo
  | fuel + 1, lo, hi =>
    if lo < hi then
      if (l.getD ((lo + hi) / 2) dummyMsg).local_timestamp < x.local_timestamp then
        bisect_leftF l x fuel ((lo + hi) / 2 + 1) hi
      else
        bisect_leftF l x fuel lo ((lo + hi) / 2)
    else lo

/-- `bisect.bisect_left(self, x)` with the default bounds `(0, len(self))`. -/
def bisect_left (l : List Message) (x : Message) (lo hi : Nat) : Nat :=
  bisect_leftF l x (hi - lo) lo hi

/-- One `(local, received)` direction of the neighbor-pair window test in
`ReorderedTimestamps._add_reordered_neighbors`: when the `received` side
carries a `_received_timestamp` and the `local` side's ordering key lies in
the interval spanned by the `received` side's two timestamps, record
`(received.sender_num, received.timestamp) -> received_ts`. -/
def reorderPairStep (r : RMap) (pre post : Message) (tlr : Bool) : RMap :=
  let locMsg := if tlr then pre else post
  let received := if tlr then post else pre
  match received.envelope.receivedTimestamp with
  | none => r
  | some received_ts =>
    let original_ts := received.timestamp
    let left := if tlr then original_ts else received_ts
    let right := if tlr then received_ts else original_ts
    if left ≤ locMsg.local_timestamp ∧ locMsg.local_timestamp ≤ right then
      rmapSet r (some received.sender_num, original_ts) received_ts
    else r

/-- `ReorderedTimestamps._add_reordered_neighbors(index)`: inspect the up to
two message pairs adjacent to `index` (Python index, `-1` meaning the last
element) and record window corrections. `none` models the `IndexError` the
source raises when a required neighbor does not exist (possible only when
called from the delete path on a chat with fewer than 3 messages). -/
def addReorderedNeighbors (l : List Message) (index : Int) (r : RMap) : Option RMap :=
  let pairs : Option (List (Message × Message)) :=
    if index = -1 then
      match pyGetMsg l (-2), pyGetMsg l (-1) with
      | some a, some b => some [(a, b)]
      | _, _ => none
    else if index = 0 then
      match pyGetMsg l 0, pyGetMsg l 1 with
      | some a, some b => some [(a, b)]
      | _, _ => none
    else
      match pyGetMsg l (index - 1), pyGetMsg l index, pyGetMsg l (index + 1) with
      | some a, some b, some c => some [(a, b), (b, c)]
      | _, _, _ => none
  pairs.map (fun ps =>
    ps.foldl (fun acc p => reorderPairStep (reorderPairStep acc p.1 p.2 true) p.1 p.2 false) r)

/-- `Chat.add(msg)`: append when the chat is empty or `msg` is not below the
last message's ordering key; otherwise `bisect`-insert at the sorted position;
then run the neighbor-pair window bookkeeping. The `.getD` default branch is
dead at `add`'s call shapes (the inspected neighbors always exist there); it
mirrors the fact that the source raises no `IndexError` from `add`. -/
def Chat.add (c : ChatState) (msg : Message) : ChatState :=
  match c.msgs.getLast? with
  | none => { c with msgs := [msg] }
  | some msg_last =>
    if msg_last.local_timestamp ≤ msg.local_timestamp then
      let msgs1 := c.msgs ++ [msg]
      { msgs := msgs1, reordered := (addReorderedNeighbors msgs1 (-1) c.reordered).getD c.reordered }
    else
      let index := bisect_right c.msgs msg 0 c.msgs.length
      let msgs1 := pyInsertAt c.msgs index msg
      { msgs := msgs1,
        reordered := (addReorderedNeighbors msgs1 (Int.ofNat index) c.reordered).getD c.reordered }

/-- `Chat.index(msg)`: locate a member message by `__eq__` (envelope equality):
first test the last element, then `bisect_left` and check the element there.
`none` models the `ValueError` ("message not found"). -/
def Chat.index (c : ChatState) (msg : Message) : Option Nat :=
  match c.msgs.getLast? with
  | none => none
  | some msg_last =>
    if msg_last.pyEq msg then some (c.msgs.length - 1)
    else
      let i := bisect_left c.msgs msg 0 c.msgs.length
      if i ≠ c.msgs.length ∧ (c.msgs.getD i dummyMsg).pyEq msg then some i else none

/-- The `match_test` closure of `Chat.index_ts`: same sender timestamp, and
the sender matches (or no sender was given). -/
def Chat.matchTest (timestamp : Nat) (sender_num : Option String) (msg : Message) : Bool :=
  msg.timestamp = timestamp ∧ (some msg.sender_num = sender_num ∨ sender_num = none)

/-- The forward part of `Chat.index_ts`'s probe loop
(`range(index+1, len(self))`): scan for a match, stopping once a probed
message's sender timestamp exceeds the target (`ind > index` always holds
in this range). -/
def Chat.probeFromF (msgs : List Message) (timestamp : Nat) (sender_num : Option String) :
    Nat → Nat → Option Nat
  | 0, _ => none
  | fuel + 1, ind =>
    if h : ind < msgs.length then
      let m := msgs.get ⟨ind, h⟩
      if Chat.matchTest timestamp sender_num m then some ind
      else if timestamp < m.timestamp then none
      else Chat.probeFromF msgs timestamp sender_num fuel (ind + 1)
    else none

/-- The forward probe entered at `ind`, with enough fuel to reach the end of
the list. -/
def Chat.probeFrom (msgs : List Message) (timestamp : Nat) (sender_num : Option String)
    (ind : Nat) : Option Nat :=
  Chat.probeFromF msgs timestamp sender_num (msgs.length - ind) ind

/-- `Chat.index_ts(timestamp, sender_num)`: find a message with the given
sender timestamp (and sender). Tests the last element first; otherwise
bisects with a dummy key seeded from `_reordered_timestamps` and
linear-probes `index`, `index-1` (Python `self[index-1]`, which is the
last element when `index == 0`), then forward. `none` models the
`ValueError`. The source can return the Python index `-1` from the
`index-1` probe; this model returns the equivalent non-negative index. -/
def Chat.index_ts (c : ChatState) (timestamp : Nat) (sender_num : Option String) : Option Nat :=
  match c.msgs.getLast? with
  | none => none
  | some msgLast =>
    if Chat.matchTest timestamp sender_num msgLast then some (c.msgs.length - 1)
    else
      let seed := match rmapGet c.reordered (sender_num, timestamp) with
        | some r => if r ≠ 0 then r else timestamp
        | none => timestamp
      let dummy : Message := { envelope := { source := "", timestamp := seed } }
      let index := bisect_left c.msgs dummy 0 c.msgs.length
      if index ≠ c.msgs.length then
        if Chat.matchTest timestamp sender_num (c.msgs.getD index dummyMsg) then some index
        else
          let prevIdx := if index = 0 then c.msgs.length - 1 else index - 1
          if Chat.matchTest timestamp sender_num (c.msgs.getD prevIdx dummyMsg) then some prevIdx
          else Chat.probeFrom c.msgs timestamp sender_num (index + 1)
      else none

/-- `ReorderedTimestamps._delete_from_reordered(msg, index)` (run after the
message itself was removed; `msgs1` is the post-deletion list): pop the
deleted message's own entry, drop entries of the former neighbors
(`IndexError`/`KeyError` suppressed), and if any neighbor entry was dropped
recompute the corrections at the adjusted index. `none` models the
uncaught `IndexError` from `_add_reordered_neighbors` (reachable only for
chats that are left with fewer than 2 messages around the recompute index). -/
def deleteFromReorderedCore (msgs1 : List Message) (edge : Bool) (idx : Int) (r1 : RMap) :
    Option RMap :=
  let offsets : List Int := if edge then [0] else [-1, 0]
  let step := fun (acc : RMap × Bool) (off : Int) =>
    match pyGetMsg msgs1 (idx + off) with
    | none => acc
    | some nb =>
      if (rmapGet acc.1 (some nb.sender_num, nb.timestamp)).isSome then
        (rmapErase acc.1 (some nb.sender_num, nb.timestamp), true)
      else acc
  let r2m := offsets.foldl step (r1, false)
  if r2m.2 then addReorderedNeighbors msgs1 idx r2m.1 else some r2m.1

/-- The index adjustment at the head of `_delete_from_reordered` followed by
the neighbor-entry cleanup (`deleteFromReorderedCore`). -/
def Chat.deleteFromReordered (msgs1 : List Message) (msg : Message) (index : Nat) (r : RMap) :
    Option RMap :=
  let r1 := rmapErase r (some msg.sender_num, msg.timestamp)
  if index = msgs1.length then deleteFromReorderedCore msgs1 true (-1) r1
  else if index ≠ 0 then deleteFromReorderedCore msgs1 false ((index : Int) - 1) r1
  else deleteFromReorderedCore msgs1 true 0 r1

/-- `Chat.delete(msg, index=None)`: locate (by `Chat.index` when no index
hint is given), remove, and update the correction index. `none` models the
re-raised `ValueError` ("message not found") and the delete path's uncaught
`IndexError`. -/
def Chat.delete (c : ChatState) (msg : Message) (index : Option Nat) : Option ChatState := do
  let i ← match index with
    | some i => pure i
    | none => Chat.index c msg
  if i < c.msgs.length then
    let msgs1 := pyDelAt c.msgs i
    let r ← Chat.deleteFromReordered msgs1 msg i c.reordered
    pure { msgs := msgs1, reordered := r }
  else none

/-- `ReorderedTimestamps._is_neighbd_monotonic(index)`: 3-neighbor check
`self[index-1] <= self[index] <= self[index+1]` with Python semantics: the
first comparison short-circuits, an `IndexError` (index out of range after
negative wraparound) yields `True`. -/
def isNeighbdMonotonic (l : List Message) (index : Int) : Bool :=
  match pyGetMsg l (index - 1), pyGetMsg l index with
  | some a, some b =>
    if a.local_timestamp ≤ b.local_timestamp then
      match pyGetMsg l (index + 1) with
      | some c2 => b.local_timestamp ≤ c2.local_timestamp
      | none => true
    else false
  | _, _ => true

/-- `Message.timestamp` setter: writes both `envelope['timestamp']` and
`envelope['dataMessage']['timestamp']`. When `dataMessage` is absent the
source would raise `KeyError`; all messages this setter is reached for carry
one, so the model then updates only the top-level timestamp. -/
def Message.setTimestamp (m : Message) (ts_new : Nat) : Message :=
  { m with envelope :=
      { m.envelope with
        timestamp := ts_new,
        dataMessage := match m.envelope.dataMessage with
          | some dm => some { dm with timestamp := some ts_new }
          | none => none } }

/-- `Chat.adjust_timestamp(msg, timestamp_adj, index=None)` where the mutated
message object is the element at position `i`: set the new timestamp in
place, re-derive the index (`index or self.index(msg)` — a `None` or `0`
argument recomputes), and when 3-neighbor monotonicity broke, physically
relocate via `delete` + `add`. `none` models an escaping
`ValueError`/`IndexError`. -/
def Chat.adjust_timestamp (c : ChatState) (i : Nat) (timestamp_adj : Nat) (index : Option Nat) :
    Option ChatState := do
  if hi : i < c.msgs.length then
    let m1 := (c.msgs.get ⟨i, hi⟩).setTimestamp timestamp_adj
    let c1 : ChatState := { c with msgs := c.msgs.set i m1 }
    let idx ← match index with
      | some j => if j ≠ 0 then pure j else Chat.index c1 m1
      | none => Chat.index c1 m1
    if isNeighbdMonotonic c1.msgs (Int.ofNat idx) then
      pure c1
    else do
      let c2 ← Chat.delete c1 m1 (some idx)
      pure (Chat.add c2 m1)
  else none

/-! ## DeliveryStatus (src/scli/__init__.py, class DeliveryStatus) -/

/-- The delivery-status tags, in the insertion order of `MARKUP_MAP`
(`''`, `received_by_me`, `sending`, `send_failed`, `sent`, `delivered`,
`read`, `ignore_receipts`); `unset` models the empty string. -/
inductive Status where
  | unset
  | received_by_me
  | sending
  | send_failed
  | sent
  | delivered
  | read
  | ignore_receipts
deriving DecidableEq, Repr, Inhabited

/-- `self._status_order`: the precedence index of each status tag (its
position in the `MARKUP_MAP` key order). -/
def statusOrder : Status → Nat
  | .unset => 0
  | .received_by_me => 1
  | .sending => 2
  | .send_failed => 3
  | .sent => 4
  | .delivered => 5
  | .read => 6
  | .ignore_receipts => 7

/-- The two receipt-borne statuses (`isDelivery` / `isRead` receipts);
these are the only statuses that ever come with a `receipt_contact`. -/
inductive RStatus where
  | delivered
  | read
deriving DecidableEq, Repr, Inhabited

/-- The `Status` a receipt sets. -/
def RStatus.toStatus : RStatus → Status
  | .delivered => .delivered
  | .read => .read

/-- `DelivReadConts`: the namedtuple of pending member sets
(`delivered` = members whose delivery is still pending,
`read` = delivered members whose read is still pending). -/
structure DelivReadConts where
  delivered : Finset String
  read : Finset String
deriving DecidableEq

/-- `DeliveryStatus.DetailedStatus`: status tag, timestamp of last change,
and the optional group pending sets (`grp_memb_remain_un`; `none` models
the absent attribute). -/
structure DetailedStatus where
  str : Status := .unset
  when : Nat := 0
  grp : Option DelivReadConts := none
deriving DecidableEq, Inhabited

/-- `DetailedStatus.set_grp_memb_status(grp_member, status)` for the receipt
statuses (the only ones the source ever passes together with a contact).
Returns the updated detail record and the status to promote to (`none` =
the Python `return None`, "no aggregate change"). Mirrors the source's
`try remove / except fall back to the delivered set` structure; for a
`delivered` receipt the fallback re-probes the same set, so a member absent
from `delivered` is a no-op. -/
def DetailedStatus.set_grp_memb_status (d : DetailedStatus) (grp_member : String)
    (status : RStatus) : DetailedStatus × Option Status :=
  match d.grp with
  | none => (d, none)
  | some g =>
    match status with
    | .delivered =>
      if grp_member ∈ g.delivered then
        let d' := g.delivered.erase grp_member
        let r' := insert grp_member g.read
        ({ d with grp := some ⟨d', r'⟩ }, if d' = ∅ then some .delivered else none)
      else (d, none)
    | .read =>
      if grp_member ∈ g.read then
        let r' := g.read.erase grp_member
        if g.delivered = ∅ ∧ r' = ∅ then ({ d with grp := none }, some .read)
        else ({ d with grp := some ⟨g.delivered, r'⟩ }, none)
      else if grp_member ∈ g.delivered then
        let d' := g.delivered.erase grp_member
        if d' = ∅ ∧ g.read ≠ ∅ then ({ d with grp := some ⟨d', g.read⟩ }, some .delivered)
        else if d' = ∅ ∧ g.read = ∅ then ({ d with grp := none }, some .read)
        else ({ d with grp := some ⟨d', g.read⟩ }, none)
      else (d, none)

/-- An entry of `DeliveryStatus._buffered`: the `DelivReadConts` of contact
sets, modelled as duplicate-free lists in insertion order because
`process_buffered_receipts` iterates them. -/
structure BufferEntry where
  deliveredL : List String := []
  readL : List String := []
deriving DecidableEq, Repr, Inhabited

/-- Python `set.add` on an insertion-ordered duplicate-free list. -/
def pySetAdd (l : List String) (x : String) : List String :=
  if x ∈ l then l else l ++ [x]

/-- State of a `DeliveryStatus` tracker: `_status_map` and `_buffered`,
both insertion-ordered dicts keyed by timestamp. -/
structure DSState where
  status_map : List (Nat × DetailedStatus) := []
  buffered : List (Nat × BufferEntry) := []
deriving DecidableEq, Inhabited

/-- Dict lookup in `_status_map` / `_buffered`. -/
def alGet {V : Type} (m : List (Nat × V)) (k : Nat) : Option V :=
  (m.find? (fun p => p.1 = k)).map (·.2)

/-- Dict store: overwrite in place or append. -/
def alSet {V : Type} (m : List (Nat × V)) (k : Nat) (v : V) : List (Nat × V) :=
  if (m.find? (fun p => p.1 = k)).isSome then
    m.map (fun p => if p.1 = k then (k, v) else p)
  else m ++ [(k, v)]

/-- Dict delete. -/
def alErase {V : Type} (m : List (Nat × V)) (k : Nat) : List (Nat × V) :=
  m.filter (fun p => ¬ p.1 = k)

/-- The fresh `DeliveryStatus()`. -/
def emptyDS : DSState := {}

/-- `DeliveryStatus.get_detailed(timestamp)`:
`self._status_map.get(timestamp, DetailedStatus())` — a pure `dict.get`
read with a default; it never inserts (unlike `_set`'s `setdefault`), so
the embedding is a state-to-value function. -/
def DeliveryStatus.get_detailed (st : DSState) (timestamp : Nat) : DetailedStatus :=
  (alGet st.status_map timestamp).getD {}

/-- `DeliveryStatus.get_str(timestamp)`: the tag of `get_detailed`. -/
def DeliveryStatus.get_str (st : DSState) (timestamp : Nat) : Status :=
  (DeliveryStatus.get_detailed st timestamp).str

/-- `DeliveryStatus._set(timestamp, status, when=None, receipt_contact=None)`:
`setdefault` the entry, early-return unless the new status has strictly
higher precedence, route through the per-member group bookkeeping when the
entry has pending sets and a contact was given, then store the (possibly
replaced) status and `when`. In the source a non-receipt status together
with a contact would raise `AttributeError` inside `set_grp_memb_status`;
no call site produces that combination and the model then leaves the entry
unchanged. -/
def DeliveryStatus.set (st : DSState) (timestamp : Nat) (status : Status)
    (when : Option Nat) (receipt_contact : Option String) : DSState :=
  let entry := (alGet st.status_map timestamp).getD {}
  let map1 :=
    if (alGet st.status_map timestamp).isSome then st.status_map
    else st.status_map ++ [(timestamp, {})]
  if statusOrder status ≤ statusOrder entry.str then { st with status_map := map1 }
  else
    let isGroup := entry.grp.isSome
    let stepped : DetailedStatus × Option Status :=
      if isGroup ∧ receipt_contact.isSome then
        match status, receipt_contact with
        | .delivered, some c => entry.set_grp_memb_status c .delivered
        | .read, some c => entry.set_grp_memb_status c .read
        | _, _ => (entry, none)
      else (entry, some status)
    match stepped.2 with
    | none => { st with status_map := alSet map1 timestamp stepped.1 }
    | some s' =>
      let entry2 := { stepped.1 with str := s', when := when.getD stepped.1.when }
      { st with status_map := alSet map1 timestamp entry2 }

/-- `DeliveryStatus._set_group_members(timestamp, group_members)`: over the
`MAX_GROUP_SIZE = 15` threshold collapse straight to `ignore_receipts`;
otherwise install the pending sets (`set(group_members)`, i.e. the members
deduplicated). -/
def DeliveryStatus.set_group_members (st : DSState) (timestamp : Nat)
    (group_members : List String) : DSState :=
  if 15 < group_members.length then
    DeliveryStatus.set st timestamp .ignore_receipts none none
  else
    match alGet st.status_map timestamp with
    | none => st
    | some entry =>
      let entry2 := { entry with grp := some ⟨group_members.toFinset, ∅⟩ }
      { st with status_map := alSet st.status_map timestamp entry2 }

/-- `DeliveryStatus._buffer_receipt(timestamp, status, contact)`: add the
contact to the buffered `delivered` / `read` set for that timestamp. -/
def DeliveryStatus.buffer_receipt (st : DSState) (timestamp : Nat) (status : RStatus)
    (contact : String) : DSState :=
  let b := (alGet st.buffered timestamp).getD {}
  let b' := match status with
    | .delivered => { b with deliveredL := pySetAdd b.deliveredL contact }
    | .read => { b with readL := pySetAdd b.readL contact }
  { st with buffered := alSet st.buffered timestamp b' }

/-- One receipt envelope, reduced to the fields `on_receive_receipt`
consumes for a single tracked timestamp: the acknowledging contact
(`envelope['source']`), the receipt kind, and `receiptMessage['when']`.
`isViewed` receipts are discarded before reaching `_set`/`_buffer_receipt`
and are not modelled. -/
structure Receipt where
  contact : String
  rs : RStatus
  whenTs : Nat
deriving DecidableEq, Repr

/-- `DeliveryStatus.on_receive_receipt` for one timestamp of the receipt's
`timestamps` list: buffer when the timestamp is not yet tracked, else
`_set`. -/
def DeliveryStatus.on_receive_receipt (st : DSState) (timestamp : Nat) (r : Receipt) : DSState :=
  if (alGet st.status_map timestamp).isNone then
    DeliveryStatus.buffer_receipt st timestamp r.rs r.contact
  else
    DeliveryStatus.set st timestamp r.rs.toStatus (some r.whenTs) (some r.contact)

/-- `DeliveryStatus.on_sending_message`: mark `sending` and, for a group
send with a known member list, install the pending sets. -/
def DeliveryStatus.on_sending_message (st : DSState) (timestamp : Nat)
    (group_members : Option (List String)) : DSState :=
  let st1 := DeliveryStatus.set st timestamp .sending none none
  match group_members with
  | some gm => DeliveryStatus.set_group_members st1 timestamp gm
  | none => st1

/-- `DeliveryStatus.on_sending_done` with the default `status='sent'` and no
timestamp adjustment: a no-op when the timestamp is unknown, else `_set`. -/
def DeliveryStatus.on_sending_done_sent (st : DSState) (timestamp : Nat) : DSState :=
  if (alGet st.status_map timestamp).isNone then st
  else DeliveryStatus.set st timestamp .sent none none

/-- `DeliveryStatus.process_buffered_receipts(timestamp)`: replay the
buffered `delivered` contacts then the buffered `read` contacts (the
namedtuple field order) through `_set` with `when=None`, then drop the
buffer entry. -/
def DeliveryStatus.process_buffered_receipts (st : DSState) (timestamp : Nat) : DSState :=
  match alGet st.buffered timestamp with
  | none => st
  | some b =>
    let st1 := b.deliveredL.foldl
      (fun acc c => DeliveryStatus.set acc timestamp .delivered none (some c)) st
    let st2 := b.readL.foldl
      (fun acc c => DeliveryStatus.set acc timestamp .read none (some c)) st1
    { st2 with buffered := alErase st2.buffered timestamp }

/-- One write against a tracked timestamp, as the call sites produce them:
a plain `_set` (no receipt contact: `on_sending_message`, `on_sending_done`,
failure classification, ...) or a receipt-driven `_set` via
`on_receive_receipt`. -/
inductive DSOp where
  | plain (status : Status) (when : Option Nat)
  | receipt (r : Receipt)
deriving DecidableEq, Repr

/-- Apply one `DSOp` naming timestamp `ts`. -/
def applyDSOp (st : DSState) (ts : Nat) : DSOp → DSState
  | .plain status when => DeliveryStatus.set st ts status when none
  | .receipt r => DeliveryStatus.set st ts r.rs.toStatus (some r.whenTs) (some r.contact)

/-- Apply a sequence of writes naming timestamp `ts`, in order. -/
def applyDSOps (st : DSState) (ts : Nat) (ops : List DSOp) : DSState :=
  ops.foldl (fun a op => applyDSOp a ts op) st

/-- Track timestamp `T` as an outgoing message whose send completed:
`on_sending_message` (which installs the group pending sets when the member
list is known) followed by `on_sending_done(status='sent')`. -/
def trackSent (st : DSState) (T : Nat) (gm : Option (List String)) : DSState :=
  DeliveryStatus.on_sending_done_sent (DeliveryStatus.on_sending_message st T gm) T

/-- Deliver a list of receipts for timestamp `T` in arrival order. -/
def applyReceipts (st : DSState) (T : Nat) (rs : List Receipt) : DSState :=
  rs.foldl (fun a r => DeliveryStatus.on_receive_receipt a T r) st

/-- Receipts arrive after `T` is tracked. -/
def scenarioDirect (T : Nat) (gm : Option (List String)) (rs : List Receipt) : DSState :=
  applyReceipts (trackSent emptyDS T gm) T rs

/-- Receipts arrive before `T` is tracked (so they are buffered), then `T`
is tracked and the buffer is replayed. -/
def scenarioBuffered (T : Nat) (gm : Option (List String)) (rs : List Receipt) : DSState :=
  DeliveryStatus.process_buffered_receipts (trackSent (applyReceipts emptyDS T rs) T gm) T

/-- The contacts with a read receipt in the list. -/
def rdSet (rs : List Receipt) : Finset String :=
  ((rs.filter (fun r => r.rs = RStatus.read)).map Receipt.contact).toFinset

/-- The contacts with a delivery receipt in the list. -/
def dvSet (rs : List Receipt) : Finset String :=
  ((rs.filter (fun r => r.rs = RStatus.delivered)).map Receipt.contact).toFinset

/-- How a timestamp is tracked: individual message, group of at most 15
members, or an over-large group collapsed to `ignore_receipts`. -/
inductive TrackMode where
  | plain
  | group (Gs : Finset String)
  | big

/-- The mode `on_sending_message` leaves a fresh timestamp in. -/
def modeOf : Option (List String) → TrackMode
  | none => TrackMode.plain
  | some gm => if 15 < gm.length then TrackMode.big else TrackMode.group gm.toFinset

/-- Status of an individually-tracked sent message given the sets of
contacts that acknowledged so far. -/
def plainView (Rd Dv : Finset String) : Status :=
  if Rd ≠ ∅ then Status.read else if Dv ≠ ∅ then Status.delivered else Status.sent

/-- Status tag and pending sets of a group-tracked sent message given the
group and the sets of contacts whose read / delivery receipts were
processed: the pending-delivery set is the group minus everyone heard
from, the pending-read set is the delivered-but-unread members. -/
def entryView (Gs Rd Dv : Finset String) : Status × Option DelivReadConts :=
  if Gs = ∅ then (Status.sent, some ⟨∅, ∅⟩)
  else if Gs \ (Rd ∪ Dv) = ∅ ∧ (Gs ∩ Dv) \ Rd = ∅ then (Status.read, none)
  else if Gs \ (Rd ∪ Dv) = ∅ then
    (Status.delivered, some ⟨Gs \ (Rd ∪ Dv), (Gs ∩ Dv) \ Rd⟩)
  else (Status.sent, some ⟨Gs \ (Rd ∪ Dv), (Gs ∩ Dv) \ Rd⟩)

/-- Status tag and pending sets after a sent message has absorbed receipts
from the given read / delivered contact sets, in every tracking mode. -/
def viewOf : TrackMode → Finset String → Finset String → Status × Option DelivReadConts
  | TrackMode.plain, Rd, Dv => (plainView Rd Dv, none)
  | TrackMode.group Gs, Rd, Dv => entryView Gs Rd Dv
  | TrackMode.big, _, _ => (Status.ignore_receipts, none)

/-- One receipt folded into a buffer entry (the body of `_buffer_receipt`
once the entry exists). -/
def bufStep (b : BufferEntry) (r : Receipt) : BufferEntry :=
  match r.rs with
  | RStatus.delivered => { b with deliveredL := pySetAdd b.deliveredL r.contact }
  | RStatus.read => { b with readL := pySetAdd b.readL r.contact }

/-- The buffer entry a receipt list accumulates for its timestamp. -/
def bufOf (rs : List Receipt) : BufferEntry := rs.foldl bufStep {}

/-! ## AsyncProc / AsyncQueued / AsyncContext (bounded process queue with
scoped completion callbacks) -/

/-- The observable callback / launch events of the process machinery, in
chronological order:
`launch` = a subprocess is actually started (`subprocess.Popen` in
`AsyncProc.run`); `cmdCallback` = the per-command `callback` passed to
`run` fires (in `watchpipe_handler`); `procCallback` = a context item's
`proc_callback` fires; `itemCallback` = a context item's final `callback`
fires. -/
inductive ACEvent where
  | launch (pid : Nat) (cmd : Nat)
  | cmdCallback (pid : Nat)
  | procCallback (itemId : Nat) (pid : Nat)
  | itemCallback (itemId : Nat)
deriving DecidableEq, Repr

/-- A queued `run_args` record: the command, whether a per-command callback
was supplied, and the dict identity `id(run_args)` used by
`AsyncContext._run_id`. -/
structure RunArgs where
  cmd : Nat
  hasCb : Bool
  runId : Nat
deriving DecidableEq, Repr

/-- One `AsyncContext.ContextItem`: attached process ids, whether the
item-level and per-process callbacks exist, and the buffered (queued, not
yet launched) run ids. The id sets are Python sets; they are modelled as
duplicate-free lists because process ids are fresh and never re-added. -/
structure ContextItem where
  itemId : Nat
  procs : List Nat
  hasCallback : Bool
  hasProcCallback : Bool
  bufferedRuns : List Nat
deriving DecidableEq, Repr

/-- State of an `AsyncContext` (which is an `AsyncQueued`, which is an
`AsyncProc`): the running set, the FIFO run queue, the concurrency cap
`_max_background_procs`, the context item deque (oldest first; the current
item is the last), the `_accepting_new_procs_for_item` flag, a table of
launched processes' per-command callback flags, and the event log plus
fresh-id counters. -/
structure ACState where
  currRunning : List Nat
  runQueue : List RunArgs
  maxProcs : Nat
  contextItems : List ContextItem
  accepting : Bool
  procCb : List (Nat × Bool)
  events : List ACEvent
  nextPid : Nat
  nextRunId : Nat
  nextItemId : Nat
deriving DecidableEq, Repr

/-- Python `set.add` on an insertion-ordered duplicate-free list of ids. -/
def pySetAddNat (l : List Nat) (x : Nat) : List Nat :=
  if x ∈ l then l else l ++ [x]

/-- A fresh `AsyncContext(main_loop)` with a given concurrency cap. -/
def acInit (maxProcs : Nat) : ACState :=
  { currRunning := [], runQueue := [], maxProcs := maxProcs, contextItems := [],
    accepting := false, procCb := [], events := [], nextPid := 0, nextRunId := 0,
    nextItemId := 0 }

/-- Replace the last context item (`self._curr_item`). -/
def setCurrItem (items : List ContextItem) (it : ContextItem) : List ContextItem :=
  items.dropLast ++ [it]

/-- `AsyncProc.run`'s process start (`subprocess.Popen` + the
`_on_proc_started` chain): log the launch, add the process to
`_curr_running` (`AsyncQueued`), and attach it to the current context item
when one is accepting (`AsyncContext`). Returns the new pid. -/
def launchProc (st : ACState) (ra : RunArgs) : ACState × Nat :=
  let pid := st.nextPid
  let items1 :=
    if st.accepting then
      match st.contextItems.getLast? with
      | some it => setCurrItem st.contextItems { it with procs := pySetAddNat it.procs pid }
      | none => st.contextItems
    else st.contextItems
  ({ st with
      events := st.events ++ [.launch pid ra.cmd],
      currRunning := st.currRunning ++ [pid],
      procCb := st.procCb ++ [(pid, ra.hasCb)],
      contextItems := items1,
      nextPid := pid + 1 }, pid)

/-- `AsyncQueued.run` (as inherited by `AsyncContext`): launch right away
unless the cap is reached, else enqueue FIFO; a queued run is also recorded
in the current item's `buffered_runs` when accepting
(`AsyncContext._add_run_to_queue`). -/
def acRun (st : ACState) (cmd : Nat) (hasCb : Bool) : ACState :=
  if st.currRunning.length ≠ st.maxProcs then
    (launchProc st ⟨cmd, hasCb, st.nextRunId⟩).1
  else
    let ra : RunArgs := ⟨cmd, hasCb, st.nextRunId⟩
    let items1 :=
      if st.accepting then
        match st.contextItems.getLast? with
        | some it => setCurrItem st.contextItems { it with bufferedRuns := it.bufferedRuns ++ [ra.runId] }
        | none => st.contextItems
      else st.contextItems
    { st with
        runQueue := st.runQueue ++ [ra],
        contextItems := items1,
        nextRunId := st.nextRunId + 1 }

/-- `AsyncContext._new_item` (the opening half of `callback_finally`): a
no-op when neither callback exists, else push a fresh `ContextItem` and
start accepting. -/
def acNewItem (st : ACState) (hasCallback hasProcCallback : Bool) : ACState :=
  if ¬ hasCallback ∧ ¬ hasProcCallback then st
  else
    { st with
        contextItems := st.contextItems ++
          [⟨st.nextItemId, [], hasCallback, hasProcCallback, []⟩],
        accepting := true,
        nextItemId := st.nextItemId + 1 }

/-- `AsyncContext._pop_callback(item)`: drop the item and fire its final
callback when it has one. -/
def acPopCallback (st : ACState) (it : ContextItem) : ACState :=
  { st with
      contextItems := st.contextItems.filter (fun x => ¬ x.itemId = it.itemId),
      events := st.events ++ (if it.hasCallback then [.itemCallback it.itemId] else []) }

/-- `AsyncContext._finalize_item` (the closing half of `callback_finally`):
stop accepting; when the current item never saw a process or buffered run,
fire its callback synchronously. -/
def acFinalizeItem (st : ACState) : ACState :=
  let st1 := { st with accepting := false }
  match st.contextItems.getLast? with
  | none => st1
  | some it =>
    if it.procs = [] ∧ it.bufferedRuns = [] then acPopCallback st1 it
    else st1

/-- `AsyncContext._remove_buffered_run(run_params, started_proc)`: move a
just-launched queued run from its owning item's `buffered_runs` into that
item's `procs` (scanning the item deque oldest-first). -/
def acRemoveBufferedRun (st : ACState) (ra : Option RunArgs) (startedPid : Option Nat) : ACState :=
  match ra, startedPid with
  | some ra, some pid =>
    let rec go : List ContextItem → List ContextItem
      | [] => []
      | it :: rest =>
        if ra.runId ∈ it.bufferedRuns then
          { it with bufferedRuns := it.bufferedRuns.filter (fun x => ¬ x = ra.runId),
                    procs := pySetAddNat it.procs pid } :: rest
        else it :: go rest
    { st with contextItems := go st.contextItems }
  | _, _ => st

/-- The item-scan loop at the end of `AsyncContext._on_proc_done`: find the
first (oldest) item holding the finished pid, detach it, fire the item's
`proc_callback`, and pop the item when it has fully drained and is no
longer accepting. -/
def acItemLoop (accepting : Bool) (pid : Nat) :
    List ContextItem → List ContextItem × List ACEvent × Option ContextItem
  | [] => ([], [], none)
  | it :: rest =>
    if pid ∈ it.procs then
      let it1 := { it with procs := it.procs.filter (fun x => ¬ x = pid) }
      let evs := if it.hasProcCallback then [ACEvent.procCallback it.itemId pid] else []
      if it1.procs = [] ∧ it1.bufferedRuns = [] ∧ ¬ accepting then
        (it1 :: rest, evs, some it1)
      else
        (it1 :: rest, evs, none)
    else
      let r := acItemLoop accepting pid rest
      (it :: r.1, r.2.1, r.2.2)

/-- Completion of process `pid` (`watchpipe_handler` in `AsyncProc.run`,
running under `AsyncContext`): fire the per-command callback first, then
`AsyncQueued._on_proc_done` frees the slot and dequeues + launches the next
queued command, then `AsyncContext._on_proc_done` reattaches the launched
run to its owning item and runs the item scan. `none` models the `KeyError`
of `_curr_running.remove(proc)` for a pid that is not running. -/
def acProcDone (st : ACState) (pid : Nat) : Option ACState :=
  if pid ∈ st.currRunning then
    let hasCb := ((st.procCb.find? (fun p => p.1 = pid)).map (·.2)).getD false
    let st1 := { st with events := st.events ++ (if hasCb then [ACEvent.cmdCallback pid] else []) }
    let st2 := { st1 with currRunning := st1.currRunning.filter (fun x => ¬ x = pid) }
    let (st3, raOpt, pidOpt) :=
      match st2.runQueue with
      | [] => (st2, none, none)
      | ra :: rest =>
        let st2q := { st2 with runQueue := rest }
        let (st2l, newPid) := launchProc st2q ra
        (st2l, some ra, some newPid)
    let st4 := acRemoveBufferedRun st3 raOpt pidOpt
    let scan := acItemLoop st4.accepting pid st4.contextItems
    let st5 := { st4 with contextItems := scan.1, events := st4.events ++ scan.2.1 }
    some (match scan.2.2 with
      | some it => acPopCallback st5 it
      | none => st5)
  else none

/-! ## Daemon._parse_send_proc_output (send-command output classifier) -/

/-- Substring occurrence on character lists (structural recursion, so that
the classifier stays kernel-computable). -/
def containsSub (sub : List Char) : List Char → Bool
  | [] => sub.isPrefixOf []
  | c :: rest => sub.isPrefixOf (c :: rest) || containsSub sub rest

/-- Python `sub in s` (substring containment). -/
def pyIn (sub s : String) : Bool :=
  containsSub sub.toList s.toList

/-- The first line of `s.splitlines()`. The source indexes `[0]`, which is
guarded at its call site by a nonempty-substring check; only `\n` line
boundaries are modelled. -/
def pyFirstLine (s : String) : String :=
  ⟨s.toList.takeWhile (fun c => c ≠ '\n')⟩

/-- The suffix after the rightmost occurrence of `sep`; `none` when `sep`
does not occur. -/
def afterLastSep (sep : List Char) : List Char → Option (List Char)
  | [] => if sep.isPrefixOf [] then some [] else none
  | c :: rest =>
    match afterLastSep sep rest with
    | some r => some r
    | none =>
      if sep.isPrefixOf (c :: rest) then some ((c :: rest).drop sep.length) else none

/-- `s.rsplit(sep, 1)[-1]`: everything after the last occurrence of `sep`
(the whole string when `sep` does not occur). -/
def pyRsplitLast (sep s : String) : String :=
  match afterLastSep sep.toList s.toList with
  | some r => ⟨r⟩
  | none => s

/-- Python whitespace characters recognised by `str.split()` /
`str.rsplit()` without a separator (ASCII subset). -/
def pyIsSpace (c : Char) : Bool :=
  c = ' ' ∨ c = '\n' ∨ c = '\t' ∨ c = '\r' ∨ c = '\x0b' ∨ c = '\x0c'

/-- Whitespace-run word splitting (Python `str.split()` with no separator). -/
def splitWsAux (acc : List Char) : List Char → List (List Char)
  | [] => if acc = [] then [] else [acc.reverse]
  | c :: rest =>
    if pyIsSpace c then
      if acc = [] then splitWsAux [] rest else acc.reverse :: splitWsAux [] rest
    else splitWsAux (c :: acc) rest

/-- `s.rsplit(maxsplit=1)[1]`: the last whitespace-separated word, provided
the split produced at least two fields; `none` models the `IndexError`
(zero or one field). -/
def pyRsplit1Tail (s : String) : Option String :=
  let words := splitWsAux [] s.toList
  match words with
  | [] => none
  | [_] => none
  | _ => (words.getLast?).map (fun w => (⟨w⟩ : String))

/-- Decimal digits to a natural number. -/
def digitsToNat (cs : List Char) : Nat :=
  cs.foldl (fun n c => n * 10 + (c.toNat - '0'.toNat)) 0

/-- Python `int(s)`: surrounding whitespace stripped, an optional single
sign, then a nonempty digit string; `none` models the `ValueError`
(underscore separators and non-ASCII digits are not modelled). -/
def pyInt (s : String) : Option Int :=
  let t := (s.toList.dropWhile pyIsSpace).reverse.dropWhile pyIsSpace |>.reverse
  match t with
  | '+' :: rest => if rest ≠ [] ∧ rest.all Char.isDigit then
      some (Int.ofNat (digitsToNat rest)) else none
  | '-' :: rest => if rest ≠ [] ∧ rest.all Char.isDigit then
      some (-(Int.ofNat (digitsToNat rest))) else none
  | _ => if t ≠ [] ∧ t.all Char.isDigit then
      some (Int.ofNat (digitsToNat t)) else none

/-- One observable callback invocation of `_parse_send_proc_output`:
`namedCb status tsAdj` is `self.callbacks[callback_name](envelope,
*status?, *tsAdj?)`; the other two are the dedicated error callbacks. -/
inductive SendCall where
  | untrustedIdentityErr
  | userUnregisteredErr
  | namedCb (status : Option Status) (tsAdj : Option Int)
deriving DecidableEq, Repr

/-- Result of the classifier: the ordered callback invocations, or an
exception escaping the method. -/
inductive SendResult where
  | calls (cs : List SendCall)
  | exn (msg : String)
deriving DecidableEq, Repr

/-- `Daemon._parse_send_proc_output(proc, envelope, callback_name)` over the
process result `(returncode, output)`: classify the captured output and
return the callback invocations in order. `.exn` models an exception
escaping the method: the `int(...)` `ValueError`s at the group
"Unregistered user" cutoff parse and at the trailing adjusted-timestamp
token are not caught (only `IndexError` and `AttributeError` are). -/
def parse_send_proc_output (returncode : Int) (output : String) (envelope : Envelope) :
    SendResult :=
  if returncode ≠ 0 then
    if pyIn "UntrustedIdentity" output ∨ pyIn "Untrusted Identity" output then
      .calls [.untrustedIdentityErr, .namedCb (some .send_failed) none]
    else if pyIn "Unregistered user" output then
      if ¬ is_envelope_group_message envelope then
        .calls [.userUnregisteredErr, .namedCb (some .send_failed) none]
      else
        match pyInt (pyRsplitLast ": " (pyFirstLine output)) with
        | none => .exn "ValueError"
        | some timestamp_adj => .calls [.namedCb (some .ignore_receipts) (some timestamp_adj)]
    else .calls [.namedCb (some .send_failed) none]
  else
    match pyRsplit1Tail output with
    | none => .calls [.namedCb none none]
    | some tok =>
      match pyInt tok with
      | none => .exn "ValueError"
      | some timestamp_adj => .calls [.namedCb (some .sent) (some timestamp_adj)]

/-! ## Shared concrete scenario data -/

/-- An inbound message with sender `s`, sender timestamp `ts`, message body
and an optional receiver timestamp. -/
def mkMsg (s : String) (ts : Nat) (rec : Option Nat) : Message :=
  Message.mk (Envelope.mk s none ts (some (DataMessage.mk (some "x") (some ts) none)) rec none)
    [] none

/-- Concrete five-message chat built through `Chat.add` (ordering keys
100, 110, 120, 130, 140): the message from sender `P` was received late
(sender ts 90, receiver ts 110) and the one from `B` was delivered late
(sender ts 125, receiver ts 140), so the correction index holds
`(P, 90) -> 110` and `(B, 125) -> 140` after the build. -/
def chatQPAMB : ChatState :=
  [mkMsg "Q" 100 none, mkMsg "P" 90 (some 110), mkMsg "A" 120 none,
   mkMsg "M" 130 none, mkMsg "B" 125 (some 140)].foldl Chat.add emptyChat

/-! ## C5: Message equality -/

/-- C5 counterexample: two messages that agree on sender id and sender
timestamp but differ in the message body are not equal under
`Message.__eq__` (which compares the whole envelopes), refuting the claim
that equality is exactly the pair (sender id, sender timestamp). -/
theorem C5_message_eq_counterexample :
    let m1 := Message.mk
      (Envelope.mk "+111" none 1000 (some (DataMessage.mk (some "hello") (some 1000) none)) none none)
      [] none
    let m2 := Message.mk
      (Envelope.mk "+111" none 1000 (some (DataMessage.mk (some "bye") (some 1000) none)) none none)
      [] none
    m1.sender_num = m2.sender_num ∧ m1.timestamp = m2.timestamp ∧ m1.pyEq m2 = false := by
  decide

/-- C5 (amended): `Message.__eq__` is exactly envelope equality — all
envelope fields, not just (sender id, sender timestamp); it does agree on
sender id and sender timestamp whenever it holds, and it ignores the
non-envelope `Message` fields (`reactions`, `remote_delete`). -/
theorem C5_message_eq_is_envelope_eq :
    ∀ m1 m2 : Message,
      (m1.pyEq m2 = true ↔ m1.envelope = m2.envelope)
      ∧ (m1.pyEq m2 = true → m1.sender_num = m2.sender_num ∧ m1.timestamp = m2.timestamp)
      ∧ ∀ r1 r2 d1 d2, (Message.mk m1.envelope r1 d1).pyEq (Message.mk m1.envelope r2 d2) = true := by
  intro m1 m2
  refine ⟨by simp [Message.pyEq], ?_, ?_⟩
  · intro h
    have he : m1.envelope = m2.envelope := by
      simpa [Message.pyEq] using h
    simp [Message.sender_num, Message.timestamp, get_envelope_sender_id, get_envelope_time, he]
  · intro r1 r2 d1 d2
    simp [Message.pyEq]

/-- C5 witness: the amended equality holds for a concrete pair differing
only in the side tables. -/
theorem C5_message_eq_is_envelope_eq_witness :
    (Message.mk (Envelope.mk "+111" none 5 none none none) [] none).pyEq
      (Message.mk (Envelope.mk "+111" none 5 none none none)
        [("+2", Envelope.mk "+2" none 6 none none none)] none) = true :=
  (C5_message_eq_is_envelope_eq
    (Message.mk (Envelope.mk "+111" none 5 none none none) [] none)
    (Message.mk (Envelope.mk "+111" none 5 none none none)
      [("+2", Envelope.mk "+2" none 6 none none none)] none)).1.mpr rfl

/-! ## C10: delivery-status queries are pure -/

/-- C10: for a timestamp with no entry in the status map, `get_detailed`
returns the default unset record (empty status tag, `when = 0`, no group
member sets) and `get_str` returns the unset tag. Both queries are embedded
as state-to-value functions because the source reads via `dict.get` with a
default (never `setdefault`), so they cannot create an entry or modify the
status map or the buffered-receipt table. -/
theorem C10_get_detailed_default (st : DSState) (timestamp : Nat)
    (h : alGet st.status_map timestamp = none) :
    DeliveryStatus.get_detailed st timestamp = DetailedStatus.mk .unset 0 none
    ∧ DeliveryStatus.get_str st timestamp = .unset := by
  constructor
  · simp [DeliveryStatus.get_detailed, h]
  · simp [DeliveryStatus.get_str, DeliveryStatus.get_detailed, h]

/-- C10 witness: the fresh tracker has no entry for timestamp 42 and the
queries return the defaults there. -/
theorem C10_get_detailed_default_witness :
    DeliveryStatus.get_detailed emptyDS 42 = DetailedStatus.mk .unset 0 none
    ∧ DeliveryStatus.get_str emptyDS 42 = .unset :=
  C10_get_detailed_default emptyDS 42 (by decide)

/-! ## C9: three commands, one scope, cap 1 -/

/-- Is an event a per-completion (`proc_callback`) firing? -/
def isProcCbEvent : ACEvent → Bool
  | .procCallback _ _ => true
  | _ => false

/-- Is an event a scope-final (`callback`) firing? -/
def isItemCbEvent : ACEvent → Bool
  | .itemCallback _ => true
  | _ => false

/-- The C9 scenario: a tracker with concurrency cap 1; one
`callback_finally` scope (with both a final and a per-completion callback)
submits three commands, the scope closes, and the three processes complete
in the only order the cap admits. -/
def c9AfterSubmit : ACState :=
  acFinalizeItem (acRun (acRun (acRun (acNewItem (acInit 1) true true) 11 false) 12 false) 13 false)

/-- The C9 scenario after the k-th completion. -/
def c9Done1 : Option ACState := acProcDone c9AfterSubmit 0

/-- The C9 scenario after the second completion. -/
def c9Done2 : Option ACState := c9Done1.bind (fun s => acProcDone s 1)

/-- The C9 scenario after the third completion. -/
def c9Done3 : Option ACState := c9Done2.bind (fun s => acProcDone s 2)

/-- C9: with a concurrency cap of 1, submitting 3 commands inside one
`callback_finally` scope runs them strictly sequentially — the full event
trace shows each launch happening only inside the previous completion's
handler; at most one process is ever running; the per-completion callback
fires exactly 3 times, in completion order; and the scope's final callback
fires exactly once, after the third completion (it is the last event). -/
theorem C9_sequential_scope :
    (c9Done3.map ACState.events) = some
      [ACEvent.launch 0 11, ACEvent.launch 1 12, ACEvent.procCallback 0 0,
       ACEvent.launch 2 13, ACEvent.procCallback 0 1, ACEvent.procCallback 0 2,
       ACEvent.itemCallback 0]
    ∧ ((c9Done3.map ACState.events).getD []).filter isProcCbEvent =
      [ACEvent.procCallback 0 0, ACEvent.procCallback 0 1, ACEvent.procCallback 0 2]
    ∧ ((c9Done3.map ACState.events).getD []).filter isItemCbEvent = [ACEvent.itemCallback 0]
    ∧ ((c9Done3.map ACState.events).getD []).getLast? = some (ACEvent.itemCallback 0)
    ∧ (c9Done1.map (fun s => s.events.length)) = some 3
    ∧ (c9Done2.map (fun s => s.events.length)) = some 5
    ∧ c9AfterSubmit.currRunning.length = 1
    ∧ (c9Done1.map (fun s => s.currRunning.length)) = some 1
    ∧ (c9Done2.map (fun s => s.currRunning.length)) = some 1
    ∧ (c9Done3.map (fun s => s.currRunning.length)) = some 0 := by
  decide

/-! ## C3: dequeue/launch vs the completed process's onDone callback -/

/-- Index of the first occurrence of an event in a trace
(`len(trace)` when absent). -/
def evIdx (tr : List ACEvent) (e : ACEvent) : Nat :=
  tr.findIdx (fun x => x = e)

/-- The C3 scenario: cap 1, no scope; two commands with per-command
callbacks are submitted, so the second is queued when the first completes. -/
def c3AfterSubmit : ACState :=
  acRun (acRun (acInit 1) 21 true) 22 true

/-- C3 counterexample: when process 0 completes while command 22 is queued,
the trace is `launch 0, cmdCallback 0, launch 1` — the completed process's
per-command `onDone` callback fires strictly before the next queued command
is launched, refuting the claim that the dequeue/launch happens first. -/
theorem C3_callback_before_launch_counterexample :
    ((acProcDone c3AfterSubmit 0).map ACState.events) = some
      [ACEvent.launch 0 21, ACEvent.cmdCallback 0, ACEvent.launch 1 22]
    ∧ ¬ (evIdx (((acProcDone c3AfterSubmit 0).map ACState.events).getD [])
          (ACEvent.launch 1 22)
        < evIdx (((acProcDone c3AfterSubmit 0).map ACState.events).getD [])
          (ACEvent.cmdCallback 0)) := by
  decide

/-- C3 (amended): when a running process `pid` completes while the queue is
non-empty, `watchpipe_handler` first invokes the completed process's
`onDone` callback and only then frees the slot and dequeues + launches the
next command (which still happens before the scope-level per-completion
callbacks, whose events form the trailing `evs`). -/
theorem C3_launch_after_callback (st : ACState) (pid : Nat) (ra : RunArgs) (rest : List RunArgs)
    (hrun : pid ∈ st.currRunning)
    (hq : st.runQueue = ra :: rest)
    (hcb : (st.procCb.find? (fun p => p.1 = pid)).map (·.2) = some true) :
    ∃ st', acProcDone st pid = some st'
      ∧ st'.events.take (st.events.length + 2) =
        st.events ++ [ACEvent.cmdCallback pid, ACEvent.launch st.nextPid ra.cmd] := by
  have hcb2 : ((st.procCb.find? (fun p => p.1 = pid)).map (·.2)).getD false = true := by
    rw [hcb]; rfl
  unfold acProcDone
  rw [if_pos hrun]
  simp only [hcb2, hq, launchProc, if_true]
  split
  · exact ⟨_, rfl, by simp [acPopCallback, acRemoveBufferedRun, List.append_assoc, List.take_append]⟩
  · exact ⟨_, rfl, by simp [acRemoveBufferedRun, List.append_assoc, List.take_append]⟩

/-- C3 witness: the amended order holds in the concrete two-command
scenario. -/
theorem C3_launch_after_callback_witness :
    ∃ st', acProcDone c3AfterSubmit 0 = some st'
      ∧ st'.events.take (c3AfterSubmit.events.length + 2) =
        c3AfterSubmit.events ++ [ACEvent.cmdCallback 0, ACEvent.launch c3AfterSubmit.nextPid 22] :=
  C3_launch_after_callback c3AfterSubmit 0 ⟨22, true, 0⟩ [] (by decide) (by decide) (by decide)

/-! ## C4: the send-output classifier -/

/-- A group envelope as produced by `send_message` to a group id. -/
def c4GroupEnv : Envelope :=
  Envelope.mk "+111" (some "grp==") 1000 (some (DataMessage.mk (some "hi") (some 1000) none))
    none none

/-- An individual-recipient envelope. -/
def c4IndivEnv : Envelope :=
  Envelope.mk "+111" (some "+4915551234567") 1000
    (some (DataMessage.mk (some "hi") (some 1000) none)) none none

/-- C4 counterexample: the classifier does raise. A zero-exit output whose
trailing token is not an integer hits the uncaught `int(...)` `ValueError`
(only `IndexError`/`AttributeError` are caught), and so does a non-zero-exit
group send whose 'Unregistered user' output has no numeric cutoff after the
last ': ' of its first line. -/
theorem C4_classifier_throws_counterexample :
    parse_send_proc_output 0 "sent something" c4IndivEnv = SendResult.exn "ValueError"
    ∧ parse_send_proc_output 1 "Unregistered user +49555" c4GroupEnv
      = SendResult.exn "ValueError" := by
  decide

/-- C4 (amended): the classifier terminates normally except exactly when an
adjusted-timestamp token fails integer parsing: on zero exit, when the
whitespace-split trailing token exists but is not an integer; on non-zero
exit, when the output is classified as a group "Unregistered user" failure
and the token after the last ': ' of the first line is not an integer. A
missing token (the `IndexError` path) still degrades to the generic
callback. -/
theorem C4_classifier_exn_iff (returncode : Int) (output : String) (envelope : Envelope) :
    parse_send_proc_output returncode output envelope = SendResult.exn "ValueError"
    ↔ ((returncode ≠ 0
          ∧ ¬ (pyIn "UntrustedIdentity" output ∨ pyIn "Untrusted Identity" output)
          ∧ pyIn "Unregistered user" output = true
          ∧ is_envelope_group_message envelope = true
          ∧ pyInt (pyRsplitLast ": " (pyFirstLine output)) = none)
        ∨ (returncode = 0
          ∧ ∃ tok, pyRsplit1Tail output = some tok ∧ pyInt tok = none)) := by
  unfold parse_send_proc_output
  by_cases hrc : returncode ≠ 0
  · rw [if_pos hrc]
    by_cases hu : pyIn "UntrustedIdentity" output ∨ pyIn "Untrusted Identity" output
    · rw [if_pos hu]
      simp [hrc, hu]
    · rw [if_neg hu]
      by_cases hunreg : pyIn "Unregistered user" output
      · rw [if_pos hunreg]
        by_cases hgrp : is_envelope_group_message envelope
        · simp only [hgrp, Bool.not_true, Bool.false_eq_true, if_false]
          cases hint : pyInt (pyRsplitLast ": " (pyFirstLine output)) with
          | none => simp [hrc, hu, hunreg, hgrp, hint]
          | some v => simp [hrc, hu, hunreg, hgrp, hint]
        · simp only [Bool.not_eq_true] at hgrp
          simp [hrc, hu, hunreg, hgrp]
      · rw [if_neg hunreg]
        simp [hrc, hu, hunreg]
  · push_neg at hrc
    rw [if_neg (by simp [hrc])]
    cases htok : pyRsplit1Tail output with
    | none => simp [hrc, htok]
    | some tok =>
      cases hint : pyInt tok with
      | none => simp [hrc, htok, hint]
      | some v => simp [hrc, htok, hint]

/-- C4 witness: the amended characterization applied at a concrete
non-integer-token zero-exit output. -/
theorem C4_classifier_exn_iff_witness :
    parse_send_proc_output 0 "sendFailed badToken" c4IndivEnv = SendResult.exn "ValueError" :=
  (C4_classifier_exn_iff 0 "sendFailed badToken" c4IndivEnv).mpr
    (Or.inr ⟨rfl, "badToken", by decide, by decide⟩)

/-! ## C1: the store is sorted after every add -/

/-- The ordering-key comparison (`Message.__le__`). -/
def msgKeyLE (a b : Message) : Prop :=
  a.local_timestamp ≤ b.local_timestamp

/-- A message list sorted by ordering key (non-decreasing
`local_timestamp`). -/
def sortedByKey (l : List Message) : Prop :=
  List.Sorted msgKeyLE l

/-- Sortedness gives key monotonicity between any two positions. -/
theorem sorted_key_le {l : List Message} (h : sortedByKey l) :
    ∀ i j (hi : i < l.length) (hj : j < l.length), i ≤ j →
      (l.get ⟨i, hi⟩).local_timestamp ≤ (l.get ⟨j, hj⟩).local_timestamp := by
  intro i j hi hj hij
  rcases Nat.lt_or_ge i j with hlt | hge
  · exact List.pairwise_iff_get.mp h ⟨i, hi⟩ ⟨j, hj⟩ hlt
  · have : i = j := Nat.le_antisymm hij hge
    subst this
    exact le_refl _

/-- One-step unfolding of `bisect_rightF` at positive fuel. -/
theorem bisect_rightF_succ (l : List Message) (x : Message) (fuel lo hi : Nat) :
    bisect_rightF l x (fuel + 1) lo hi =
      if lo < hi then
        if x.local_timestamp < (l.getD ((lo + hi) / 2) dummyMsg).local_timestamp then
          bisect_rightF l x fuel lo ((lo + hi) / 2)
        else bisect_rightF l x fuel ((lo + hi) / 2 + 1) hi
      else lo :=
  rfl

/-- `bisect_rightF` with no fuel. -/
theorem bisect_rightF_zero (l : List Message) (x : Message) (lo hi : Nat) :
    bisect_rightF l x 0 lo hi = lo :=
  rfl

/-- One-step unfolding of `bisect_leftF` at positive fuel. -/
theorem bisect_leftF_succ (l : List Message) (x : Message) (fuel lo hi : Nat) :
    bisect_leftF l x (fuel + 1) lo hi =
      if lo < hi then
        if (l.getD ((lo + hi) / 2) dummyMsg).local_timestamp < x.local_timestamp then
          bisect_leftF l x fuel ((lo + hi) / 2 + 1) hi
        else bisect_leftF l x fuel lo ((lo + hi) / 2)
      else lo :=
  rfl

/-- `bisect_leftF` with no fuel. -/
theorem bisect_leftF_zero (l : List Message) (x : Message) (lo hi : Nat) :
    bisect_leftF l x 0 lo hi = lo :=
  rfl

/-- Specification of the fuelled `bisect_right`: with sufficient fuel and a
sorted slice, it returns the partition point between keys `≤ x` and keys
`> x`, given that the region left of `lo` is already known `≤ x` and the
region right of `hi` already known `> x`. -/
theorem bisect_rightF_spec (l : List Message) (x : Message) :
    ∀ fuel lo hi, hi ≤ l.length → lo ≤ hi → hi - lo ≤ fuel →
    sortedByKey l →
    (∀ j (hj : j < l.length), j < lo →
      (l.get ⟨j, hj⟩).local_timestamp ≤ x.local_timestamp) →
    (∀ j (hj : j < l.length), hi ≤ j →
      x.local_timestamp < (l.get ⟨j, hj⟩).local_timestamp) →
    lo ≤ bisect_rightF l x fuel lo hi ∧ bisect_rightF l x fuel lo hi ≤ hi
    ∧ (∀ j (hj : j < l.length), j < bisect_rightF l x fuel lo hi →
        (l.get ⟨j, hj⟩).local_timestamp ≤ x.local_timestamp)
    ∧ (∀ j (hj : j < l.length), bisect_rightF l x fuel lo hi ≤ j →
        x.local_timestamp < (l.get ⟨j, hj⟩).local_timestamp) := by
  intro fuel
  induction fuel with
  | zero =>
    intro lo hi hhi hlohi hfuel hsort hlo hhi'
    have : lo = hi := by omega
    subst this
    rw [bisect_rightF_zero]
    exact ⟨le_refl _, le_refl _, hlo, hhi'⟩
  | succ fuel ih =>
    intro lo hi hhi hlohi hfuel hsort hlo hhi'
    by_cases hlt : lo < hi
    · have hmidlo : lo ≤ (lo + hi) / 2 := by omega
      have hmidhi : (lo + hi) / 2 < hi := by omega
      have hmidlen : (lo + hi) / 2 < l.length := by omega
      have hgetD : l.getD ((lo + hi) / 2) dummyMsg = l.get ⟨(lo + hi) / 2, hmidlen⟩ := by
        simp [List.getD_eq_getElem?_getD, List.getElem?_eq_getElem hmidlen]
      by_cases hcmp :
          x.local_timestamp < (l.getD ((lo + hi) / 2) dummyMsg).local_timestamp
      · have hstep : bisect_rightF l x (fuel + 1) lo hi = bisect_rightF l x fuel lo ((lo + hi) / 2) := by
          rw [bisect_rightF_succ, if_pos hlt, if_pos hcmp]
        rw [hstep]
        have hrec := ih lo ((lo + hi) / 2) (by omega) hmidlo (by omega) hsort hlo ?_
        · exact ⟨hrec.1, by omega, hrec.2.2⟩
        · intro j hj hmj
          calc x.local_timestamp
              < (l.get ⟨(lo + hi) / 2, hmidlen⟩).local_timestamp := by rw [hgetD] at hcmp; exact hcmp
            _ ≤ (l.get ⟨j, hj⟩).local_timestamp := sorted_key_le hsort _ _ _ _ hmj
      · have hstep : bisect_rightF l x (fuel + 1) lo hi = bisect_rightF l x fuel ((lo + hi) / 2 + 1) hi := by
          rw [bisect_rightF_succ, if_pos hlt, if_neg hcmp]
        rw [hstep]
        refine (ih ((lo + hi) / 2 + 1) hi hhi (by omega) (by omega) hsort ?_ hhi').imp
          (fun h => by omega) (fun h => h)
        intro j hj hmj
        have hj2 : j ≤ (lo + hi) / 2 := by omega
        calc (l.get ⟨j, hj⟩).local_timestamp
            ≤ (l.get ⟨(lo + hi) / 2, hmidlen⟩).local_timestamp := sorted_key_le hsort _ _ _ _ hj2
          _ ≤ x.local_timestamp := by
              rw [hgetD] at hcmp
              omega
    · have : lo = hi := by omega
      subst this
      rw [bisect_rightF_succ, if_neg hlt]
      exact ⟨le_refl _, le_refl _, hlo, hhi'⟩

/-- Specification of the fuelled `bisect_left`: the partition point between
keys `< x` and keys `≥ x`. -/
theorem bisect_leftF_spec (l : List Message) (x : Message) :
    ∀ fuel lo hi, hi ≤ l.length → lo ≤ hi → hi - lo ≤ fuel →
    sortedByKey l →
    (∀ j (hj : j < l.length), j < lo →
      (l.get ⟨j, hj⟩).local_timestamp < x.local_timestamp) →
    (∀ j (hj : j < l.length), hi ≤ j →
      x.local_timestamp ≤ (l.get ⟨j, hj⟩).local_timestamp) →
    lo ≤ bisect_leftF l x fuel lo hi ∧ bisect_leftF l x fuel lo hi ≤ hi
    ∧ (∀ j (hj : j < l.length), j < bisect_leftF l x fuel lo hi →
        (l.get ⟨j, hj⟩).local_timestamp < x.local_timestamp)
    ∧ (∀ j (hj : j < l.length), bisect_leftF l x fuel lo hi ≤ j →
        x.local_timestamp ≤ (l.get ⟨j, hj⟩).local_timestamp) := by
  intro fuel
  induction fuel with
  | zero =>
    intro lo hi hhi hlohi hfuel hsort hlo hhi'
    have : lo = hi := by omega
    subst this
    rw [bisect_leftF_zero]
    exact ⟨le_refl _, le_refl _, hlo, hhi'⟩
  | succ fuel ih =>
    intro lo hi hhi hlohi hfuel hsort hlo hhi'
    by_cases hlt : lo < hi
    · have hmidlo : lo ≤ (lo + hi) / 2 := by omega
      have hmidhi : (lo + hi) / 2 < hi := by omega
      have hmidlen : (lo + hi) / 2 < l.length := by omega
      have hgetD : l.getD ((lo + hi) / 2) dummyMsg = l.get ⟨(lo + hi) / 2, hmidlen⟩ := by
        simp [List.getD_eq_getElem?_getD, List.getElem?_eq_getElem hmidlen]
      by_cases hcmp :
          (l.getD ((lo + hi) / 2) dummyMsg).local_timestamp < x.local_timestamp
      · have hstep : bisect_leftF l x (fuel + 1) lo hi = bisect_leftF l x fuel ((lo + hi) / 2 + 1) hi := by
          rw [bisect_leftF_succ, if_pos hlt, if_pos hcmp]
        rw [hstep]
        refine (ih ((lo + hi) / 2 + 1) hi hhi (by omega) (by omega) hsort ?_ hhi').imp
          (fun h => by omega) (fun h => h)
        intro j hj hmj
        have hj2 : j ≤ (lo + hi) / 2 := by omega
        calc (l.get ⟨j, hj⟩).local_timestamp
            ≤ (l.get ⟨(lo + hi) / 2, hmidlen⟩).local_timestamp := sorted_key_le hsort _ _ _ _ hj2
          _ < x.local_timestamp := by rw [hgetD] at hcmp; exact hcmp
      · have hstep : bisect_leftF l x (fuel + 1) lo hi = bisect_leftF l x fuel lo ((lo + hi) / 2) := by
          rw [bisect_leftF_succ, if_pos hlt, if_neg hcmp]
        rw [hstep]
        have hrec := ih lo ((lo + hi) / 2) (by omega) hmidlo (by omega) hsort hlo ?_
        · exact ⟨hrec.1, by omega, hrec.2.2⟩
        · intro j hj hmj
          calc x.local_timestamp
              ≤ (l.get ⟨(lo + hi) / 2, hmidlen⟩).local_timestamp := by
                rw [hgetD] at hcmp
                omega
            _ ≤ (l.get ⟨j, hj⟩).local_timestamp := sorted_key_le hsort _ _ _ _ hmj
    · have : lo = hi := by omega
      subst this
      rw [bisect_leftF_succ, if_neg hlt]
      exact ⟨le_refl _, le_refl _, hlo, hhi'⟩

/-- Inserting `x` at a position that splits keys `≤ x` (left) from keys
`≥ x` (right) keeps the list sorted. -/
theorem sorted_pyInsertAt {l : List Message} {x : Message} {r : Nat}
    (hsort : sortedByKey l) (hr : r ≤ l.length)
    (hleft : ∀ j (hj : j < l.length), j < r →
      (l.get ⟨j, hj⟩).local_timestamp ≤ x.local_timestamp)
    (hright : ∀ j (hj : j < l.length), r ≤ j →
      x.local_timestamp ≤ (l.get ⟨j, hj⟩).local_timestamp) :
    sortedByKey (pyInsertAt l r x) := by
  unfold sortedByKey pyInsertAt
  rw [List.Sorted, List.pairwise_append]
  refine ⟨List.Pairwise.sublist (List.take_sublist r l) hsort, ?_, ?_⟩
  · rw [List.pairwise_cons]
    refine ⟨?_, List.Pairwise.sublist (List.drop_sublist r l) hsort⟩
    intro b hb
    obtain ⟨i, hi, hbi⟩ := List.mem_iff_getElem.mp hb
    have hlen : r + i < l.length := by
      have := hi
      simp [List.length_drop] at this
      omega
    have hbv : b = l.get ⟨r + i, hlen⟩ := by
      rw [← hbi]
      simp [List.getElem_drop]
    rw [show msgKeyLE x b ↔ x.local_timestamp ≤ b.local_timestamp from Iff.rfl, hbv]
    exact hright (r + i) hlen (by omega)
  · intro a ha b hb
    obtain ⟨i, hi, hai⟩ := List.mem_iff_getElem.mp ha
    have hir : i < r := by
      have := hi
      simp [List.length_take] at this
      omega
    have hil : i < l.length := by
      have := hi
      simp [List.length_take] at this
      omega
    have hav : a = l.get ⟨i, hil⟩ := by
      rw [← hai]
      simp [List.getElem_take]
    have hax : a.local_timestamp ≤ x.local_timestamp := by
      rw [hav]
      exact hleft i hil hir
    rcases List.mem_cons.mp hb with hbx | hbd
    · subst hbx
      exact hax
    · obtain ⟨k, hk, hbk⟩ := List.mem_iff_getElem.mp hbd
      have hklen : r + k < l.length := by
        have := hk
        simp [List.length_drop] at this
        omega
      have hbv : b = l.get ⟨r + k, hklen⟩ := by
        rw [← hbk]
        simp [List.getElem_drop]
      show a.local_timestamp ≤ b.local_timestamp
      calc a.local_timestamp ≤ x.local_timestamp := hax
        _ ≤ b.local_timestamp := by rw [hbv]; exact hright (r + k) hklen (by omega)

/-- Appending a message whose key is at least every existing key keeps the
list sorted. -/
theorem sorted_append_last {l : List Message} {x : Message}
    (hsort : sortedByKey l)
    (hle : ∀ a ∈ l, a.local_timestamp ≤ x.local_timestamp) :
    sortedByKey (l ++ [x]) := by
  unfold sortedByKey
  rw [List.Sorted, List.pairwise_append]
  refine ⟨hsort, by simp, ?_⟩
  intro a ha b hb
  rcases List.mem_singleton.mp hb with rfl
  exact hle a ha

/-- `Chat.add` preserves sortedness of the message sequence. -/
theorem chat_add_sorted {c : ChatState} {m : Message} (hsort : sortedByKey c.msgs) :
    sortedByKey (Chat.add c m).msgs := by
  unfold Chat.add
  split
  · simp [sortedByKey]
  next msg_last hlast =>
    split
    next hle =>
      show sortedByKey (c.msgs ++ [m])
      refine sorted_append_last hsort ?_
      intro a ha
      obtain ⟨i, hi, hai⟩ := List.mem_iff_getElem.mp ha
      have hne : c.msgs ≠ [] := by
        intro h
        rw [h] at hlast
        simp at hlast
      have hpos : 0 < c.msgs.length := List.length_pos.mpr hne
      have hlastv : msg_last = c.msgs.get ⟨c.msgs.length - 1, by omega⟩ := by
        rw [List.getLast?_eq_getElem?] at hlast
        rw [List.getElem?_eq_getElem (l := c.msgs) (n := c.msgs.length - 1) (by omega)] at hlast
        simpa using hlast.symm
      calc a.local_timestamp
          = (c.msgs.get ⟨i, hi⟩).local_timestamp := by rw [← hai]; simp
        _ ≤ msg_last.local_timestamp := by
            rw [hlastv]
            exact sorted_key_le hsort _ _ _ _ (by omega)
        _ ≤ m.local_timestamp := hle
    next hle =>
      show sortedByKey (pyInsertAt c.msgs (bisect_right c.msgs m 0 c.msgs.length) m)
      unfold bisect_right
      have hspec := bisect_rightF_spec c.msgs m (c.msgs.length - 0) 0 c.msgs.length
        (le_refl _) (Nat.zero_le _) (by omega) hsort
        (by intro j hj hcon; omega)
        (by intro j hj hcon; omega)
      exact sorted_pyInsertAt hsort hspec.2.1 hspec.2.2.1
        (fun j hj hge => le_of_lt (hspec.2.2.2 j hj hge))

/-- C1: for every sequence of `Chat.add` calls starting from the empty
conversation store, the store's message sequence is sorted in
non-decreasing order of ordering key (`local_timestamp`: receiver timestamp
if present, else sender timestamp) after every call — i.e. after every
prefix of the sequence. -/
theorem C1_chat_add_sorted_after_every_call :
    ∀ (msgs : List Message) (k : Nat),
      sortedByKey (((msgs.take k).foldl Chat.add emptyChat).msgs) := by
  intro msgs k
  have : ∀ (ms : List Message) (c : ChatState), sortedByKey c.msgs →
      sortedByKey ((ms.foldl Chat.add c).msgs) := by
    intro ms
    induction ms with
    | nil => intro c h; exact h
    | cons m rest ih =>
      intro c h
      exact ih _ (chat_add_sorted h)
  exact this _ _ (by simp [emptyChat, sortedByKey])

/-! ## C6: identity lookup through the CorrectionIndex -/

/-- The bisect dummy used by `index_ts` has the seeded key as its ordering
key. -/
theorem index_ts_dummy_key (seed : Nat) (hseed : seed ≠ 0) :
    (Message.mk (Envelope.mk "" none seed none none none) [] none).local_timestamp = seed := by
  simp [Message.local_timestamp, Message.timestamp, get_envelope_time, hseed]

/-- C6 (amended): lookup by identity succeeds for a message whose
CorrectionIndex entry maps its original sender timestamp to its current
ordering key — the add-path window case: if message `m` (sender `s`, sender
timestamp `T`, ordering key `R`) is the first element with key `≥ R` in a
sorted chat and `_reordered_timestamps` holds `(s, T) -> R`, then
`index_ts T s` finds a message with sender `s` and sender timestamp `T`. -/
theorem C6_lookup_via_correction (c : ChatState) (i : Nat) (m : Message) (s : String) (T R : Nat)
    (hsort : sortedByKey c.msgs)
    (hi : i < c.msgs.length)
    (hm : c.msgs.get ⟨i, hi⟩ = m)
    (hs : m.sender_num = s)
    (hT : m.timestamp = T)
    (hR : m.local_timestamp = R)
    (hRz : R ≠ 0)
    (hentry : rmapGet c.reordered (some s, T) = some R)
    (hfirst : ∀ j (hj : j < c.msgs.length), j < i →
      (c.msgs.get ⟨j, hj⟩).local_timestamp < R) :
    ∃ j, Chat.index_ts c T (some s) = some j
      ∧ ∃ hj : j < c.msgs.length,
        (c.msgs.get ⟨j, hj⟩).timestamp = T ∧ (c.msgs.get ⟨j, hj⟩).sender_num = s := by
  have hne : c.msgs ≠ [] := by
    intro h
    rw [h] at hi
    simp at hi
  have hpos : 0 < c.msgs.length := List.length_pos.mpr hne
  unfold Chat.index_ts
  split
  next hlast => simp [List.getLast?_eq_none_iff] at hlast; exact absurd hlast hne
  next msgLast hlast =>
    have hlastv : msgLast = c.msgs.get ⟨c.msgs.length - 1, by omega⟩ := by
      rw [List.getLast?_eq_getElem?] at hlast
      rw [List.getElem?_eq_getElem (l := c.msgs) (n := c.msgs.length - 1) (by omega)] at hlast
      simpa using hlast.symm
    by_cases hmt : Chat.matchTest T (some s) msgLast
    · rw [if_pos hmt]
      refine ⟨c.msgs.length - 1, rfl, by omega, ?_⟩
      have h2 : msgLast.timestamp = T ∧ (some msgLast.sender_num = some s ∨ (some s : Option String) = none) := by
        simpa [Chat.matchTest] using hmt
      rw [← hlastv]
      rcases h2 with ⟨ht, hsv | hnone⟩
      · exact ⟨ht, by simpa using hsv⟩
      · simp at hnone
    · rw [if_neg hmt]
      simp only [hentry, if_pos hRz]
      have hdk : (Message.mk (Envelope.mk "" none R none none none) [] none).local_timestamp
          = R := index_ts_dummy_key R hRz
      have hspec := bisect_leftF_spec c.msgs
        (Message.mk (Envelope.mk "" none R none none none) [] none)
        (c.msgs.length - 0) 0 c.msgs.length (le_refl _) (Nat.zero_le _) (by omega) hsort
        (by intro j hj hcon; omega)
        (by intro j hj hcon; omega)
      rw [hdk] at hspec
      set r := bisect_leftF c.msgs
        (Message.mk (Envelope.mk "" none R none none none) [] none)
        (c.msgs.length - 0) 0 c.msgs.length with hrdef
      have hri : r = i := by
        rcases Nat.lt_trichotomy r i with hlt | heq | hgt
        · have h1 := hfirst r (by omega) hlt
          have h2 := hspec.2.2.2 r (by omega) (le_refl r)
          omega
        · exact heq
        · have h1 := hspec.2.2.1 i hi hgt
          rw [hm, hR] at h1
          omega
      unfold bisect_left
      rw [← hrdef, hri, if_pos (by omega : i ≠ c.msgs.length)]
      have hgd : c.msgs.getD i dummyMsg = m := by
        rw [← hm]
        simp [List.getD_eq_getElem?_getD, List.getElem?_eq_getElem hi]
      rw [hgd]
      have hmtm : Chat.matchTest T (some s) m = true := by
        unfold Chat.matchTest
        have : m.timestamp = T ∧ (some m.sender_num = some s ∨ (some s : Option String) = none) := by
          exact ⟨hT, Or.inl (by rw [hs])⟩
        exact decide_eq_true this
      rw [if_pos hmtm]
      exact ⟨i, rfl, hi, by rw [hm]; exact ⟨hT, hs⟩⟩

instance : DecidableRel msgKeyLE :=
  fun a b => inferInstanceAs (Decidable (a.local_timestamp ≤ b.local_timestamp))

instance (l : List Message) : Decidable (sortedByKey l) :=
  inferInstanceAs (Decidable (List.Sorted msgKeyLE l))

/-- Concrete four-message chat built through `Chat.add` (ordering keys
100, 120, 150, 200): the message from `B` was sent at 50 but received at
150, straddling its neighbor, so the build records the correction
`(B, 50) -> 150`. -/
def chatWindow : ChatState :=
  [mkMsg "A" 100 none, mkMsg "A2" 120 none, mkMsg "B" 50 (some 150),
   mkMsg "C" 200 none].foldl Chat.add emptyChat

/-- C6 witness: in `chatWindow` the correction entry `(B, 50) -> 150` is
present and lookup by the original sender timestamp 50 finds the reordered
message. -/
theorem C6_lookup_via_correction_witness :
    ∃ j, Chat.index_ts chatWindow 50 (some "B") = some j
      ∧ ∃ hj : j < chatWindow.msgs.length,
        (chatWindow.msgs.get ⟨j, hj⟩).timestamp = 50
        ∧ (chatWindow.msgs.get ⟨j, hj⟩).sender_num = "B" :=
  C6_lookup_via_correction chatWindow 2 (mkMsg "B" 50 (some 150)) "B" 50 150
    (by decide) (by decide) (by decide) (by decide) (by decide) (by decide)
    (by decide) (by decide) (by decide)

/-- C6 counterexample: in `chatQPAMB`, message `M` (sender timestamp 130,
no receiver timestamp, ordering key 130) sits next to the correction-window
message `B` whose add-time entry `(B, 125) -> 140` is in the index, and the
adjustment 130 -> 135 lies inside that window `[125, 140]`. After
`adjust_timestamp` changes `M`'s ordering key to 135, lookup by the
original sender timestamp 130 raises "not found" (no CorrectionIndex entry
is written for `M`, and `match_test` compares against the rewritten
timestamp); lookup succeeds only with the adjusted timestamp 135. This
refutes the claim that lookup by the original timestamp still succeeds. -/
theorem C6_lookup_after_adjust_counterexample :
    rmapGet chatQPAMB.reordered (some "B", 125) = some 140
    ∧ (chatQPAMB.msgs.getD 3 dummyMsg).timestamp = 130
    ∧ (chatQPAMB.msgs.getD 3 dummyMsg).local_timestamp = 130
    ∧ ((Chat.adjust_timestamp chatQPAMB 3 135 none).map
        (fun c => (c.msgs.getD 3 dummyMsg).local_timestamp)) = some 135
    ∧ ((Chat.adjust_timestamp chatQPAMB 3 135 none).map
        (fun c => rmapGet c.reordered (some "M", 130))) = some none
    ∧ ((Chat.adjust_timestamp chatQPAMB 3 135 none).bind
        (fun c => Chat.index_ts c 130 (some "M"))) = none
    ∧ ((Chat.adjust_timestamp chatQPAMB 3 135 none).bind
        (fun c => Chat.index_ts c 135 (some "M"))) = some 3 := by
  decide


/-! ## C7: delete followed by re-add -/

/-- A Python index access succeeds exactly when the index is in
`[-len, len)`. -/
theorem pyGetMsg_isSome (l : List Message) (i : Int) :
    (pyGetMsg l i).isSome ↔ (-(l.length : Int) ≤ i ∧ i < l.length) := by
  unfold pyGetMsg
  dsimp only
  constructor
  · intro h
    split at h
    next hc =>
      split at h
      next hcc => omega
      next => simp at h
    next hc =>
      split at h
      next hcc => omega
      next => simp at h
  · intro h
    have hc : (0 ≤ (if (0 : Int) ≤ i then i else i + l.length))
        ∧ ((if (0 : Int) ≤ i then i else i + l.length)).toNat < l.length := by
      by_cases h0 : (0 : Int) ≤ i
      · rw [if_pos h0]
        omega
      · rw [if_neg h0]
        omega
    rw [dif_pos hc]
    simp

/-- `_add_reordered_neighbors` cannot raise when the index it is handed has
the required neighbors; whether it raises does not depend on the map. -/
theorem addReorderedNeighbors_isSome (l : List Message) (idx : Int) (r : RMap)
    (h : (idx = -1 ∧ 2 ≤ l.length) ∨ (idx = 0 ∧ 2 ≤ l.length)
      ∨ (1 ≤ idx ∧ idx + 1 < l.length)) :
    (addReorderedNeighbors l idx r).isSome := by
  unfold addReorderedNeighbors
  rcases h with ⟨h1, h2⟩ | ⟨h1, h2⟩ | ⟨h1, h2⟩
  · subst h1
    have hm2 : (pyGetMsg l (-2)).isSome := (pyGetMsg_isSome l (-2)).mpr (by constructor <;> omega)
    have hm1 : (pyGetMsg l (-1)).isSome := (pyGetMsg_isSome l (-1)).mpr (by constructor <;> omega)
    rw [Option.isSome_iff_exists] at hm2 hm1
    obtain ⟨a, ha⟩ := hm2
    obtain ⟨b, hb⟩ := hm1
    simp [ha, hb]
  · subst h1
    have hm0 : (pyGetMsg l 0).isSome := (pyGetMsg_isSome l 0).mpr (by constructor <;> omega)
    have hm1 : (pyGetMsg l 1).isSome := (pyGetMsg_isSome l 1).mpr (by constructor <;> omega)
    rw [Option.isSome_iff_exists] at hm0 hm1
    obtain ⟨a, ha⟩ := hm0
    obtain ⟨b, hb⟩ := hm1
    simp [ha, hb]
  · have hne1 : ¬ (idx = -1) := by omega
    have hne0 : ¬ (idx = 0) := by omega
    have hma : (pyGetMsg l (idx - 1)).isSome := (pyGetMsg_isSome l _).mpr (by constructor <;> omega)
    have hmb : (pyGetMsg l idx).isSome := (pyGetMsg_isSome l _).mpr (by constructor <;> omega)
    have hmc : (pyGetMsg l (idx + 1)).isSome := (pyGetMsg_isSome l _).mpr (by constructor <;> omega)
    rw [Option.isSome_iff_exists] at hma hmb hmc
    obtain ⟨a, ha⟩ := hma
    obtain ⟨b, hb⟩ := hmb
    obtain ⟨c, hc⟩ := hmc
    simp [hne1, hne0, ha, hb, hc]

/-- The cleanup core cannot raise when the recompute index is safe for
`_add_reordered_neighbors`, or when nothing can set the `modified` flag. -/
theorem deleteFromReorderedCore_isSome (msgs1 : List Message) (edge : Bool) (idx : Int)
    (r1 : RMap)
    (h : ((idx = -1 ∧ 2 ≤ msgs1.length) ∨ (idx = 0 ∧ 2 ≤ msgs1.length)
          ∨ (1 ≤ idx ∧ idx + 1 < msgs1.length))
      ∨ (edge = true ∧ pyGetMsg msgs1 idx = none)) :
    (deleteFromReorderedCore msgs1 edge idx r1).isSome := by
  unfold deleteFromReorderedCore
  dsimp only
  rcases h with hgood | ⟨hedge, hnone⟩
  · generalize (if edge = true then ([0] : List Int) else [-1, 0]) = offs
    split
    · exact addReorderedNeighbors_isSome _ _ _ hgood
    · simp
  · subst hedge
    have h00 : pyGetMsg msgs1 (idx + 0) = none := by
      rw [show idx + 0 = idx from by omega]
      exact hnone
    simp [h00, hnone]

/-- `_delete_from_reordered` cannot raise provided the post-deletion chat
does not have exactly one message (the excluded case is the source's
uncaught `IndexError` on deleting from a two-message chat whose surviving
neighbor holds a correction entry). -/
theorem deleteFromReordered_isSome (msgs1 : List Message) (msg : Message) (i : Nat) (r : RMap)
    (hile : i ≤ msgs1.length) (hlen : msgs1.length ≠ 1) :
    (Chat.deleteFromReordered msgs1 msg i r).isSome := by
  unfold Chat.deleteFromReordered
  dsimp only
  by_cases hlast : i = msgs1.length
  · rw [if_pos hlast]
    by_cases hL0 : msgs1.length = 0
    · refine deleteFromReorderedCore_isSome _ _ _ _ (Or.inr ⟨rfl, ?_⟩)
      have := (pyGetMsg_isSome msgs1 (-1))
      rw [hL0] at this
      cases hres : pyGetMsg msgs1 (-1) with
      | none => rfl
      | some v =>
        have hs : (pyGetMsg msgs1 (-1)).isSome := by rw [hres]; rfl
        rw [this] at hs
        omega
    · exact deleteFromReorderedCore_isSome _ _ _ _ (Or.inl (Or.inl ⟨rfl, by omega⟩))
  · rw [if_neg hlast]
    by_cases hi0 : i = 0
    · rw [if_neg (by simp [hi0])]
      exact deleteFromReorderedCore_isSome _ _ _ _ (Or.inl (Or.inr (Or.inl ⟨rfl, by omega⟩)))
    · rw [if_pos hi0]
      by_cases hi1 : i = 1
      · refine deleteFromReorderedCore_isSome _ _ _ _ (Or.inl (Or.inr (Or.inl ⟨?_, by omega⟩)))
        subst hi1
        simp
      · refine deleteFromReorderedCore_isSome _ _ _ _ (Or.inl (Or.inr (Or.inr ⟨?_, ?_⟩)))
        · omega
        · omega

/-- `Chat.index` locates a member message at a key-unique position. -/
theorem chat_index_unique (c : ChatState) (i : Nat) (m : Message)
    (hsort : sortedByKey c.msgs)
    (hi : i < c.msgs.length)
    (hm : c.msgs.get ⟨i, hi⟩ = m)
    (huniq : ∀ j (hj : j < c.msgs.length), j ≠ i →
      (c.msgs.get ⟨j, hj⟩).local_timestamp ≠ m.local_timestamp) :
    Chat.index c m = some i := by
  have hne : c.msgs ≠ [] := by
    intro h
    rw [h] at hi
    simp at hi
  have hpos : 0 < c.msgs.length := List.length_pos.mpr hne
  unfold Chat.index
  split
  next hlast => simp [List.getLast?_eq_none_iff] at hlast; exact absurd hlast hne
  next msgLast hlast =>
    have hlastv : msgLast = c.msgs.get ⟨c.msgs.length - 1, by omega⟩ := by
      rw [List.getLast?_eq_getElem?] at hlast
      rw [List.getElem?_eq_getElem (l := c.msgs) (n := c.msgs.length - 1) (by omega)] at hlast
      simpa using hlast.symm
    by_cases heq : msgLast.pyEq m
    · rw [if_pos heq]
      have henv : msgLast.envelope = m.envelope := by
        simpa [Message.pyEq] using heq
      have hkey : msgLast.local_timestamp = m.local_timestamp := by
        unfold Message.local_timestamp Message.timestamp get_envelope_time
        rw [henv]
      have : c.msgs.length - 1 = i := by
        by_contra hcon
        exact huniq (c.msgs.length - 1) (by omega) hcon (by rw [← hlastv]; exact hkey)
      rw [this]
    · rw [if_neg heq]
      have hlt : ∀ j (hj : j < c.msgs.length), j < i →
          (c.msgs.get ⟨j, hj⟩).local_timestamp < m.local_timestamp := by
        intro j hj hji
        have h1 := sorted_key_le hsort j i hj hi (by omega)
        rw [hm] at h1
        have h2 := huniq j hj (by omega)
        omega
      have hgt : ∀ j (hj : j < c.msgs.length), i < j →
          m.local_timestamp < (c.msgs.get ⟨j, hj⟩).local_timestamp := by
        intro j hj hji
        have h1 := sorted_key_le hsort i j hi hj (by omega)
        rw [hm] at h1
        have h2 := huniq j hj (by omega)
        omega
      unfold bisect_left
      have hspec := bisect_leftF_spec c.msgs m (c.msgs.length - 0) 0 c.msgs.length
        (le_refl _) (Nat.zero_le _) (by omega) hsort
        (by intro j hj hcon; omega)
        (by intro j hj hcon; omega)
      set rr := bisect_leftF c.msgs m (c.msgs.length - 0) 0 c.msgs.length with hrr
      have hri : rr = i := by
        rcases Nat.lt_trichotomy rr i with hlt2 | heq2 | hgt2
        · have h1 := hlt rr (by omega) hlt2
          have h2 := hspec.2.2.2 rr (by omega) (le_refl rr)
          omega
        · exact heq2
        · have h1 := hspec.2.2.1 i hi hgt2
          rw [hm] at h1
          omega
      have hcond : i ≠ c.msgs.length ∧ (c.msgs.getD i dummyMsg).pyEq m := by
        refine ⟨by omega, ?_⟩
        have hgd : c.msgs.getD i dummyMsg = m := by
          rw [← hm]
          simp [List.getD_eq_getElem?_getD, List.getElem?_eq_getElem hi]
        rw [hgd]
        simp [Message.pyEq]
      rw [hri, if_pos hcond]

/-- Length of a Python single-index deletion. -/
theorem pyDelAt_length (l : List Message) (i : Nat) (h : i < l.length) :
    (pyDelAt l i).length = l.length - 1 := by
  simp [pyDelAt, List.length_take, List.length_drop]
  omega

/-- Elements of a Python single-index deletion: positions left of the hole
are unchanged, positions from the hole on shift up by one. -/
theorem pyDelAt_get (l : List Message) (i : Nat) (hi : i < l.length)
    (j : Nat) (hj : j < (pyDelAt l i).length) :
    (pyDelAt l i).get ⟨j, hj⟩ =
      if h : j < i then l.get ⟨j, by omega⟩
      else l.get ⟨j + 1, by rw [pyDelAt_length l i hi] at hj; omega⟩ := by
  have hlen' := pyDelAt_length l i hi
  have htake : (l.take i).length = i := by
    simp [List.length_take]
    omega
  unfold pyDelAt
  by_cases h : j < i
  · rw [dif_pos h]
    have hj2 : j < (l.take i).length := by omega
    simp only [List.get_eq_getElem]
    rw [List.getElem_append_left hj2]
    exact List.getElem_take l
  · rw [dif_neg h]
    have hj2 : (l.take i).length ≤ j := by omega
    simp only [List.get_eq_getElem]
    rw [List.getElem_append_right hj2]
    rw [List.getElem_drop l]
    congr 1
    omega

/-- Re-adding the unique-keyed message deleted from position `i` restores
the original message sequence, whatever the correction index holds. -/
theorem chat_add_back (l : List Message) (i : Nat) (m : Message) (r : RMap)
    (hsort : sortedByKey l) (hi : i < l.length) (hm : l.get ⟨i, hi⟩ = m)
    (huniq : ∀ j (hj : j < l.length), j ≠ i →
      (l.get ⟨j, hj⟩).local_timestamp ≠ m.local_timestamp) :
    (Chat.add (ChatState.mk (pyDelAt l i) r) m).msgs = l := by
  have hlen' := pyDelAt_length l i hi
  have hsub : List.Sublist (pyDelAt l i) l := by
    rw [pyDelAt, ← List.eraseIdx_eq_take_drop_succ]
    exact List.eraseIdx_sublist l i
  have hsort' : sortedByKey (pyDelAt l i) := List.Pairwise.sublist hsub hsort
  have hlt : ∀ j (hj : j < l.length), j < i →
      (l.get ⟨j, hj⟩).local_timestamp < m.local_timestamp := by
    intro j hj hji
    have h1 := sorted_key_le hsort j i hj hi (by omega)
    rw [hm] at h1
    have h2 := huniq j hj (by omega)
    omega
  have hgt : ∀ j (hj : j < l.length), i < j →
      m.local_timestamp < (l.get ⟨j, hj⟩).local_timestamp := by
    intro j hj hji
    have h1 := sorted_key_le hsort i j hi hj (by omega)
    rw [hm] at h1
    have h2 := huniq j hj (by omega)
    omega
  by_cases hL1 : l.length = 1
  · have hi0 : i = 0 := by omega
    subst hi0
    have hnil : pyDelAt l 0 = [] := by
      have := hlen'
      rw [hL1] at this
      exact List.length_eq_zero.mp (by omega)
    obtain ⟨a, ha⟩ := List.length_eq_one.mp hL1
    subst ha
    have hma : a = m := hm
    unfold Chat.add
    rw [hnil]
    simp only [List.getLast?_nil]
    rw [hma]
  · have hL2 : 2 ≤ l.length := by omega
    have hne' : pyDelAt l i ≠ [] := by
      intro hcon
      have := congrArg List.length hcon
      rw [hlen'] at this
      simp at this
      omega
    have hpos' : 0 < (pyDelAt l i).length := List.length_pos.mpr hne'
    obtain ⟨last', hlast'⟩ : ∃ v, (pyDelAt l i).getLast? = some v := by
      cases hres : (pyDelAt l i).getLast? with
      | none => rw [List.getLast?_eq_none_iff] at hres; exact absurd hres hne'
      | some v => exact ⟨v, rfl⟩
    have hlastv' : last' = (pyDelAt l i).get ⟨(pyDelAt l i).length - 1, by omega⟩ := by
      rw [List.getLast?_eq_getElem?] at hlast'
      rw [List.getElem?_eq_getElem (l := pyDelAt l i) (n := (pyDelAt l i).length - 1)
        (by omega)] at hlast'
      simpa using hlast'.symm
    unfold Chat.add
    rw [hlast']
    dsimp only
    by_cases hiL : i = l.length - 1
    · -- the deleted message was the last one: append is taken
      have hkey : last'.local_timestamp ≤ m.local_timestamp := by
        rw [hlastv', pyDelAt_get l i hi _ _]
        rw [dif_pos (by omega : (pyDelAt l i).length - 1 < i)]
        have := sorted_key_le hsort ((pyDelAt l i).length - 1) i (by omega) hi (by omega)
        rw [hm] at this
        exact this
      rw [if_pos hkey]
      show pyDelAt l i ++ [m] = l
      have hdrop : l.drop (i + 1) = [] := by
        have : l.length ≤ i + 1 := by omega
        simp [List.drop_eq_nil_of_le this]
      unfold pyDelAt
      rw [hdrop, List.append_nil, ← hm]
      have : l.get ⟨i, hi⟩ = l[i] := rfl
      rw [this, List.take_concat_get' l i hi]
      rw [show i + 1 = l.length from by omega, List.take_length]
    · -- interior deletion: the bisect branch re-inserts at the hole
      have hiL2 : i < l.length - 1 := by omega
      have hkey : ¬ (last'.local_timestamp ≤ m.local_timestamp) := by
        rw [hlastv', pyDelAt_get l i hi _ _]
        rw [dif_neg (by omega : ¬ ((pyDelAt l i).length - 1 < i))]
        have := hgt ((pyDelAt l i).length - 1 + 1) (by omega) (by omega)
        omega
      rw [if_neg hkey]
      show pyInsertAt (pyDelAt l i) (bisect_right (pyDelAt l i) m 0 (pyDelAt l i).length) m = l
      unfold bisect_right
      have hspec := bisect_rightF_spec (pyDelAt l i) m ((pyDelAt l i).length - 0) 0
        (pyDelAt l i).length (le_refl _) (Nat.zero_le _) (by omega) hsort'
        (by intro j hj hcon; omega)
        (by intro j hj hcon; omega)
      set rr := bisect_rightF (pyDelAt l i) m ((pyDelAt l i).length - 0) 0
        (pyDelAt l i).length with hrrdef
      have hri : rr = i := by
        rcases Nat.lt_trichotomy rr i with hlt2 | heq2 | hgt2
        · have h1 := hspec.2.2.2 rr (by omega) (le_refl rr)
          have h2 : (pyDelAt l i).get ⟨rr, by omega⟩ = l.get ⟨rr, by omega⟩ := by
            rw [pyDelAt_get l i hi _ _, dif_pos hlt2]
          rw [h2] at h1
          have h3 := hlt rr (by omega) hlt2
          omega
        · exact heq2
        · have hrle : rr ≤ (pyDelAt l i).length := hspec.2.1
          have h1 := hspec.2.2.1 i (by omega) hgt2
          have h2 : (pyDelAt l i).get ⟨i, by omega⟩ = l.get ⟨i + 1, by omega⟩ := by
            rw [pyDelAt_get l i hi _ _, dif_neg (by omega : ¬ (i < i))]
          rw [h2] at h1
          have h3 := hgt (i + 1) (by omega) (by omega)
          omega
      rw [hri]
      unfold pyInsertAt pyDelAt
      have htake : (l.take i).length = i := by
        simp [List.length_take]
        omega
      rw [List.take_append_of_le_length (by omega), List.take_take,
        show i ⊓ i = i from by omega]
      rw [show (l.take i ++ l.drop (i + 1)).drop i
          = (l.take i ++ l.drop (i + 1)).drop ((l.take i).length + 0) from by
            simp [htake],
        List.drop_append, List.drop_zero]
      rw [← hm]
      have : l.get ⟨i, hi⟩ = l[i] := rfl
      rw [this, List.getElem_cons_drop l i hi, List.take_append_drop]

/-- C7 (amended): `Chat.delete` followed by `Chat.add` of the equal message
restores the original sorted message sequence, for a message whose ordering
key is unique in a chat that does not have exactly two messages (the source
raises `IndexError` from the delete path in part of that excluded case).
The CorrectionIndex is not always restored — see the counterexample. -/
theorem C7_delete_readd_messages (c : ChatState) (i : Nat) (m : Message)
    (hsort : sortedByKey c.msgs)
    (hi : i < c.msgs.length)
    (hm : c.msgs.get ⟨i, hi⟩ = m)
    (huniq : ∀ j (hj : j < c.msgs.length), j ≠ i →
      (c.msgs.get ⟨j, hj⟩).local_timestamp ≠ m.local_timestamp)
    (hlen : c.msgs.length ≠ 2) :
    ∃ c', Chat.delete c m none = some c'
      ∧ c'.msgs = pyDelAt c.msgs i
      ∧ (Chat.add c' m).msgs = c.msgs := by
  have hidx := chat_index_unique c i m hsort hi hm huniq
  have hlen' := pyDelAt_length c.msgs i hi
  have hsome := deleteFromReordered_isSome (pyDelAt c.msgs i) m i c.reordered
    (by omega) (by omega)
  obtain ⟨r, hr⟩ := Option.isSome_iff_exists.mp hsome
  refine ⟨ChatState.mk (pyDelAt c.msgs i) r, ?_, rfl,
    chat_add_back c.msgs i m r hsort hi hm huniq⟩
  unfold Chat.delete
  simp [hidx, hi, hr]

/-- C7 witness: deleting and re-adding the middle message of `chatQPAMB`
restores the message sequence. -/
theorem C7_delete_readd_messages_witness :
    ∃ c', Chat.delete chatQPAMB (mkMsg "M" 130 none) none = some c'
      ∧ c'.msgs = pyDelAt chatQPAMB.msgs 3
      ∧ (Chat.add c' (mkMsg "M" 130 none)).msgs = chatQPAMB.msgs :=
  C7_delete_readd_messages chatQPAMB 3 (mkMsg "M" 130 none)
    (by decide) (by decide) (by decide) (by decide) (by decide)

/-- C7 counterexample: in `chatQPAMB`, deleting message `M` and re-adding
the equal message restores the sorted message sequence but not the
CorrectionIndex: the entry `(P, 90) -> 110` (about a message two positions
to the left of the deleted one) is dropped by the delete path's neighbor
cleanup and never regenerated, so the resulting store state is not
equivalent to the original. -/
theorem C7_delete_readd_counterexample :
    rmapGet chatQPAMB.reordered (some "P", 90) = some 110
    ∧ (Chat.delete chatQPAMB (mkMsg "M" 130 none) none).map
        (fun c' => (Chat.add c' (mkMsg "M" 130 none)).msgs) = some chatQPAMB.msgs
    ∧ (Chat.delete chatQPAMB (mkMsg "M" 130 none) none).map
        (fun c' => rmapGet (Chat.add c' (mkMsg "M" 130 none)).reordered (some "P", 90))
      = some none := by
  decide

/-! ## C2: status precedence is monotone -/

/-- `alSet` stores the value at the key. -/
theorem alGet_alSet_self {V : Type} (m : List (Nat × V)) (k : Nat) (v : V) :
    alGet (alSet m k v) k = some v := by
  unfold alGet alSet
  split
  next hp =>
    induction m with
    | nil => simp at hp
    | cons a rest ih =>
      simp only [List.map_cons]
      by_cases ha : a.1 = k
      · rw [if_pos ha, List.find?_cons_of_pos _ (by simp)]
        rfl
      · rw [List.find?_cons_of_neg _ (by simpa using ha)] at hp
        rw [if_neg ha, List.find?_cons_of_neg _ (by simpa using ha)]
        exact ih hp
  next hp =>
    induction m with
    | nil =>
      rw [List.nil_append, List.find?_cons_of_pos _ (by simp)]
      rfl
    | cons a rest ih =>
      have ha : ¬ a.1 = k := by
        intro hcon
        exact hp (by rw [List.find?_cons_of_pos _ (by simpa using hcon)]; rfl)
      have hp2 : ¬ (List.find? (fun p => decide (p.1 = k)) rest).isSome = true := by
        intro hcon
        exact hp (by rw [List.find?_cons_of_neg _ (by simpa using ha)]; exact hcon)
      rw [List.cons_append, List.find?_cons_of_neg _ (by simpa using ha)]
      exact ih hp2

/-- `alSet` leaves other keys alone. -/
theorem alGet_alSet_ne {V : Type} (m : List (Nat × V)) (k k2 : Nat) (v : V) (hne : k2 ≠ k) :
    alGet (alSet m k v) k2 = alGet m k2 := by
  unfold alGet alSet
  split
  next hp =>
    clear hp
    congr 1
    induction m with
    | nil => simp
    | cons a rest ih =>
      simp only [List.map_cons]
      by_cases ha : a.1 = k2
      · have hak : ¬ a.1 = k := by rw [ha]; exact hne
        rw [if_neg hak, List.find?_cons_of_pos _ (by simpa using ha),
            List.find?_cons_of_pos _ (by simpa using ha)]
      · by_cases hak : a.1 = k
        · rw [if_pos hak, List.find?_cons_of_neg _ (by simpa using Ne.symm hne),
              List.find?_cons_of_neg _ (by simpa using ha)]
          exact ih
        · rw [if_neg hak, List.find?_cons_of_neg _ (by simpa using ha),
              List.find?_cons_of_neg _ (by simpa using ha)]
          exact ih
  next hp =>
    clear hp
    congr 1
    induction m with
    | nil =>
      rw [List.nil_append, List.find?_cons_of_neg _ (by simpa using Ne.symm hne)]
    | cons a rest ih =>
      rw [List.cons_append]
      by_cases ha : a.1 = k2
      · rw [List.find?_cons_of_pos _ (by simpa using ha),
            List.find?_cons_of_pos _ (by simpa using ha)]
      · rw [List.find?_cons_of_neg _ (by simpa using ha),
            List.find?_cons_of_neg _ (by simpa using ha)]
        exact ih

/-- `get_str` unfolded to the map lookup. -/
theorem get_str_eq (st : DSState) (T : Nat) :
    DeliveryStatus.get_str st T = ((alGet st.status_map T).getD {}).str := rfl

/-- Appending a fresh key does not change other lookups. -/
theorem alGet_append_ne {V : Type} (m : List (Nat × V)) (k k2 : Nat) (v : V) (hne : k2 ≠ k) :
    alGet (m ++ [(k, v)]) k2 = alGet m k2 := by
  unfold alGet
  congr 1
  induction m with
  | nil =>
    rw [List.nil_append, List.find?_cons_of_neg _ (by simpa using Ne.symm hne)]
  | cons a rest ih =>
    rw [List.cons_append]
    by_cases ha : a.1 = k2
    · rw [List.find?_cons_of_pos _ (by simpa using ha),
          List.find?_cons_of_pos _ (by simpa using ha)]
    · rw [List.find?_cons_of_neg _ (by simpa using ha),
          List.find?_cons_of_neg _ (by simpa using ha)]
      exact ih

/-- Appending a key that was absent makes it found. -/
theorem alGet_append_self {V : Type} (m : List (Nat × V)) (k : Nat) (v : V)
    (h : alGet m k = none) : alGet (m ++ [(k, v)]) k = some v := by
  unfold alGet at h ⊢
  induction m with
  | nil =>
    rw [List.nil_append, List.find?_cons_of_pos _ (by simp)]
    rfl
  | cons a rest ih =>
    by_cases ha : a.1 = k
    · rw [List.find?_cons_of_pos _ (by simpa using ha)] at h
      simp at h
    · rw [List.find?_cons_of_neg _ (by simpa using ha)] at h
      rw [List.cons_append, List.find?_cons_of_neg _ (by simpa using ha)]
      exact ih h

/-- `set_grp_memb_status` never touches the status tag of the record it
returns; only the aggregate promotion (second component) can change it. -/
theorem set_grp_memb_status_str (d : DetailedStatus) (c : String) (rs : RStatus) :
    (DetailedStatus.set_grp_memb_status d c rs).1.str = d.str := by
  unfold DetailedStatus.set_grp_memb_status
  dsimp only
  repeat' split
  all_goals rfl

/-- When `set_grp_memb_status` promotes, it promotes to `delivered` or
`read` — precedence at least 5. -/
theorem set_grp_memb_status_some (d : DetailedStatus) (c : String) (rs : RStatus) (s' : Status)
    (h : (DetailedStatus.set_grp_memb_status d c rs).2 = some s') :
    5 ≤ statusOrder s' := by
  unfold DetailedStatus.set_grp_memb_status at h
  dsimp only at h
  repeat' split at h
  all_goals simp_all [statusOrder]
  all_goals subst h
  all_goals decide

/-- `_set(ts, ...)` leaves every other timestamp's status unchanged. -/
theorem ds_set_frame (st : DSState) (ts : Nat) (status : Status) (when : Option Nat)
    (contact : Option String) (T : Nat) (hne : T ≠ ts) :
    DeliveryStatus.get_str (DeliveryStatus.set st ts status when contact) T
      = DeliveryStatus.get_str st T := by
  simp only [get_str_eq]
  unfold DeliveryStatus.set
  dsimp only
  have hmap1 : alGet (if (alGet st.status_map ts).isSome then st.status_map
      else st.status_map ++ [(ts, ({} : DetailedStatus))]) T = alGet st.status_map T := by
    split
    · rfl
    · exact alGet_append_ne _ _ _ _ hne
  split
  · dsimp only
    rw [hmap1]
  · split
    · dsimp only
      rw [alGet_alSet_ne _ _ _ _ hne, hmap1]
    · dsimp only
      rw [alGet_alSet_ne _ _ _ _ hne, hmap1]

/-- `_set(ts, ...)` never lowers the precedence of `ts`'s own status. -/
theorem ds_set_mono_at (st : DSState) (ts : Nat) (status : Status) (when : Option Nat)
    (contact : Option String) :
    statusOrder (DeliveryStatus.get_str st ts)
      ≤ statusOrder (DeliveryStatus.get_str (DeliveryStatus.set st ts status when contact) ts) := by
  simp only [get_str_eq]
  unfold DeliveryStatus.set
  dsimp only
  split
  next hle =>
    dsimp only
    cases hs : alGet st.status_map ts with
    | none => simp [hs, alGet_append_self st.status_map ts {} hs]
    | some e => simp [hs]
  next hgt =>
    by_cases hA : ((alGet st.status_map ts).getD {}).grp.isSome = true ∧ contact.isSome = true
    · rw [if_pos hA]
      cases contact with
      | none => simp at hA
      | some c =>
        cases status
        all_goals dsimp only
        all_goals try (rw [alGet_alSet_self]; simp only [Option.getD_some]; exact le_refl _)
        · split
          next hh =>
            dsimp only
            rw [alGet_alSet_self]
            simp only [Option.getD_some]
            rw [set_grp_memb_status_str]
          next s' hh =>
            dsimp only
            rw [alGet_alSet_self]
            simp only [Option.getD_some]
            have h5 := set_grp_memb_status_some _ _ _ _ hh
            rw [show statusOrder Status.delivered = 5 from rfl] at hgt
            omega
        · split
          next hh =>
            dsimp only
            rw [alGet_alSet_self]
            simp only [Option.getD_some]
            rw [set_grp_memb_status_str]
          next s' hh =>
            dsimp only
            rw [alGet_alSet_self]
            simp only [Option.getD_some]
            have h5 := set_grp_memb_status_some _ _ _ _ hh
            rw [show statusOrder Status.read = 6 from rfl] at hgt
            omega
    · rw [if_neg hA]
      dsimp only
      rw [alGet_alSet_self]
      simp only [Option.getD_some]
      omega

/-- `_set` never lowers the precedence of any timestamp's status. -/
theorem ds_set_mono (st : DSState) (ts : Nat) (status : Status) (when : Option Nat)
    (contact : Option String) (T : Nat) :
    statusOrder (DeliveryStatus.get_str st T)
      ≤ statusOrder (DeliveryStatus.get_str (DeliveryStatus.set st ts status when contact) T) := by
  by_cases hT : T = ts
  · subst hT
    exact ds_set_mono_at st T status when contact
  · rw [ds_set_frame st ts status when contact T hT]

/-- Monotonicity survives any sequence of writes. -/
theorem applyDSOps_mono (ops : List DSOp) (st : DSState) (ts T : Nat) :
    statusOrder (DeliveryStatus.get_str st T)
      ≤ statusOrder (DeliveryStatus.get_str (applyDSOps st ts ops) T) := by
  induction ops generalizing st with
  | nil => exact le_refl _
  | cons op rest ih =>
    refine le_trans ?_ (ih (applyDSOp st ts op))
    cases op with
    | plain status when => exact ds_set_mono st ts status when none T
    | receipt r => exact ds_set_mono st ts r.rs.toStatus (some r.whenTs) (some r.contact) T

/-- A `_set` that does not strictly raise precedence changes no status. -/
theorem ds_set_noop (st : DSState) (ts : Nat) (status : Status) (when : Option Nat)
    (contact : Option String)
    (h : statusOrder status ≤ statusOrder (DeliveryStatus.get_str st ts)) (T : Nat) :
    DeliveryStatus.get_str (DeliveryStatus.set st ts status when contact) T
      = DeliveryStatus.get_str st T := by
  by_cases hT : T = ts
  · subst hT
    simp only [get_str_eq] at h ⊢
    unfold DeliveryStatus.set
    dsimp only
    rw [if_pos h]
    dsimp only
    cases hs : alGet st.status_map T with
    | none => simp [hs, alGet_append_self st.status_map T {} hs]
    | some e => simp [hs]
  · exact ds_set_frame st ts status when contact T hT

/-- A concrete tracked state: timestamp 100 marked `sent` for the group
{"alice", "bob"}. -/
def c2St : DSState :=
  DeliveryStatus.on_sending_done_sent
    (DeliveryStatus.on_sending_message emptyDS 100 (some ["alice", "bob"])) 100

/-- A concrete receipt sequence against timestamp 100. -/
def c2Ops : List DSOp :=
  [DSOp.receipt ⟨"alice", RStatus.delivered, 150⟩,
   DSOp.receipt ⟨"alice", RStatus.read, 160⟩,
   DSOp.receipt ⟨"bob", RStatus.delivered, 170⟩]

/-- C2: `DeliveryStatus` status setting is monotone: for every timestamp and
every sequence of `_set` / receipt writes (any interleaving of plain and
receipt-driven `_set` calls, group or individual), the stored status tag
only moves forward in the precedence order `''` < `received_by_me` <
`sending` < `send_failed` < `sent` < `delivered` < `read` <
`ignore_receipts`, and never regresses; moreover a `_set` whose new status
does not have strictly higher precedence than the current one leaves every
stored status unchanged (a no-op up to the `setdefault` of a default
entry, which itself carries the lowest tag). -/
theorem C2_status_monotone_and_noop :
    (∀ (ops : List DSOp) (st : DSState) (ts T : Nat),
        statusOrder (DeliveryStatus.get_str st T)
          ≤ statusOrder (DeliveryStatus.get_str (applyDSOps st ts ops) T))
    ∧ (∀ (st : DSState) (ts : Nat) (status : Status) (when : Option Nat)
        (contact : Option String),
        statusOrder status ≤ statusOrder (DeliveryStatus.get_str st ts) →
        ∀ T, DeliveryStatus.get_str (DeliveryStatus.set st ts status when contact) T
          = DeliveryStatus.get_str st T) :=
  ⟨fun ops st ts T => applyDSOps_mono ops st ts T,
   fun st ts status when contact h T => ds_set_noop st ts status when contact h T⟩

/-- C2 witness: the monotonicity bound on a concrete receipt sequence, and
the no-op clause for re-setting `sending` on an already-`sent` timestamp. -/
theorem C2_status_monotone_and_noop_witness :
    (statusOrder (DeliveryStatus.get_str c2St 100)
       ≤ statusOrder (DeliveryStatus.get_str (applyDSOps c2St 100 c2Ops) 100))
    ∧ DeliveryStatus.get_str (DeliveryStatus.set c2St 100 Status.sending none none) 100
       = DeliveryStatus.get_str c2St 100 :=
  ⟨C2_status_monotone_and_noop.1 c2Ops c2St 100 100,
   C2_status_monotone_and_noop.2 c2St 100 Status.sending none none (by decide) 100⟩

/-! ## C8: buffered receipts replay to the same status -/

/-- Lookup in the empty dict. -/
theorem alGet_nil {V : Type} (k : Nat) : alGet ([] : List (Nat × V)) k = none := rfl

/-- Lookup in a singleton dict at its key. -/
theorem alGet_single_self {V : Type} (k : Nat) (v : V) : alGet [(k, v)] k = some v := by
  unfold alGet
  rw [List.find?_cons_of_pos _ (by simp)]
  rfl

/-- Store into the empty dict. -/
theorem alSet_nil {V : Type} (k : Nat) (v : V) : alSet ([] : List (Nat × V)) k v = [(k, v)] := rfl

/-- Store into a singleton dict at its key. -/
theorem alSet_single_self {V : Type} (k : Nat) (v0 v : V) :
    alSet [(k, v0)] k v = [(k, v)] := by
  unfold alSet
  rw [if_pos (by rw [List.find?_cons_of_pos _ (by simp)]; rfl)]
  simp

/-- `_set` on a present entry, with the `setdefault` discharged. -/
theorem ds_set_present (st : DSState) (T : Nat) (status : Status) (w : Option Nat)
    (contact : Option String) (e : DetailedStatus) (hT : alGet st.status_map T = some e) :
    DeliveryStatus.set st T status w contact =
      if statusOrder status ≤ statusOrder e.str then st
      else
        let stepped : DetailedStatus × Option Status :=
          if e.grp.isSome ∧ contact.isSome then
            match status, contact with
            | Status.delivered, some c => e.set_grp_memb_status c RStatus.delivered
            | Status.read, some c => e.set_grp_memb_status c RStatus.read
            | _, _ => (e, none)
          else (e, some status)
        match stepped.2 with
        | none => { st with status_map := alSet st.status_map T stepped.1 }
        | some s' =>
          let e2 : DetailedStatus := { stepped.1 with str := s', when := w.getD stepped.1.when }
          { st with status_map := alSet st.status_map T e2 } := by
  unfold DeliveryStatus.set
  simp only [hT, Option.getD_some, Option.isSome_some, if_true]

/-- A receipt for an already-tracked timestamp goes straight to `_set`. -/
theorem on_receive_tracked (st : DSState) (T : Nat) (r : Receipt) (e : DetailedStatus)
    (hT : alGet st.status_map T = some e) :
    DeliveryStatus.on_receive_receipt st T r
      = DeliveryStatus.set st T r.rs.toStatus (some r.whenTs) (some r.contact) := by
  unfold DeliveryStatus.on_receive_receipt
  rw [if_neg (by rw [hT]; simp)]

/-- Pending-delivery set after a delivery receipt from `c`. -/
theorem pendD_after_delivered (Gs Rd Dv : Finset String) (c : String) :
    Gs \ (Rd ∪ insert c Dv) = (Gs \ (Rd ∪ Dv)).erase c := by
  ext g
  simp only [Finset.mem_sdiff, Finset.mem_union, Finset.mem_insert, Finset.mem_erase]
  tauto

/-- Pending-read set after a delivery receipt from a still-pending `c`. -/
theorem pendR_after_delivered_mem (Gs Rd Dv : Finset String) (c : String)
    (hc : c ∈ Gs \ (Rd ∪ Dv)) :
    (Gs ∩ insert c Dv) \ Rd = insert c ((Gs ∩ Dv) \ Rd) := by
  simp only [Finset.mem_sdiff, Finset.mem_union] at hc
  ext g
  simp only [Finset.mem_sdiff, Finset.mem_inter, Finset.mem_insert]
  constructor
  · rintro ⟨⟨hg, hgc | hgd⟩, hgr⟩
    · exact Or.inl hgc
    · exact Or.inr ⟨⟨hg, hgd⟩, hgr⟩
  · rintro (hgc | ⟨⟨hg, hgd⟩, hgr⟩)
    · subst hgc
      exact ⟨⟨hc.1, Or.inl rfl⟩, fun hr => hc.2 (Or.inl hr)⟩
    · exact ⟨⟨hg, Or.inr hgd⟩, hgr⟩

/-- Pending-read set after a delivery receipt from a not-pending `c`. -/
theorem pendR_after_delivered_not_mem (Gs Rd Dv : Finset String) (c : String)
    (hc : c ∉ Gs \ (Rd ∪ Dv)) :
    (Gs ∩ insert c Dv) \ Rd = (Gs ∩ Dv) \ Rd := by
  simp only [Finset.mem_sdiff, Finset.mem_union, not_and, not_not] at hc
  ext g
  simp only [Finset.mem_sdiff, Finset.mem_inter, Finset.mem_insert]
  constructor
  · rintro ⟨⟨hg, hgc | hgd⟩, hgr⟩
    · subst hgc
      rcases hc hg with hr | hd
      · exact absurd hr hgr
      · exact ⟨⟨hg, hd⟩, hgr⟩
    · exact ⟨⟨hg, hgd⟩, hgr⟩
  · rintro ⟨⟨hg, hgd⟩, hgr⟩
    exact ⟨⟨hg, Or.inr hgd⟩, hgr⟩

/-- Pending-delivery set after a read receipt from `c`. -/
theorem pendD_after_read (Gs Rd Dv : Finset String) (c : String) :
    Gs \ (insert c Rd ∪ Dv) = (Gs \ (Rd ∪ Dv)).erase c := by
  ext g
  simp only [Finset.mem_sdiff, Finset.mem_union, Finset.mem_insert, Finset.mem_erase]
  tauto

/-- Pending-read set after a read receipt from `c`. -/
theorem pendR_after_read (Gs Rd Dv : Finset String) (c : String) :
    (Gs ∩ Dv) \ insert c Rd = ((Gs ∩ Dv) \ Rd).erase c := by
  ext g
  simp only [Finset.mem_sdiff, Finset.mem_insert, Finset.mem_erase]
  tauto

/-- `_set` with no precedence gain returns the state unchanged. -/
theorem ds_set_early (st : DSState) (T : Nat) (status : Status) (w : Option Nat)
    (contact : Option String) (e : DetailedStatus) (hT : alGet st.status_map T = some e)
    (h : statusOrder status ≤ statusOrder e.str) :
    DeliveryStatus.set st T status w contact = st := by
  rw [ds_set_present st T status w contact e hT, if_pos h]

/-- `_set` on a non-group entry overwrites tag and `when`. -/
theorem ds_set_plain_step (st : DSState) (T : Nat) (status : Status) (w : Option Nat)
    (contact : Option String) (e : DetailedStatus) (hT : alGet st.status_map T = some e)
    (he2 : e.grp = none) (h : ¬ statusOrder status ≤ statusOrder e.str) :
    DeliveryStatus.set st T status w contact
      = { st with status_map := alSet st.status_map T { e with str := status, when := w.getD e.when } } := by
  rw [ds_set_present st T status w contact e hT, if_neg h]
  dsimp only
  simp only [he2, Option.isSome_none, Bool.false_eq_true, false_and, if_false]

/-- `_set` of a receipt on a group entry routes through the member sets. -/
theorem ds_set_group_step (st : DSState) (T : Nat) (rcpt : RStatus) (w : Option Nat)
    (c : String) (e : DetailedStatus) (g : DelivReadConts) (hT : alGet st.status_map T = some e)
    (he2 : e.grp = some g) (h : ¬ statusOrder rcpt.toStatus ≤ statusOrder e.str) :
    DeliveryStatus.set st T rcpt.toStatus w (some c)
      = match (e.set_grp_memb_status c rcpt).2 with
        | none => { st with status_map := alSet st.status_map T (e.set_grp_memb_status c rcpt).1 }
        | some s' => { st with status_map := alSet st.status_map T { (e.set_grp_memb_status c rcpt).1 with str := s', when := w.getD (e.set_grp_memb_status c rcpt).1.when } } := by
  rw [ds_set_present st T rcpt.toStatus w (some c) e hT, if_neg h]
  dsimp only
  simp only [he2, Option.isSome_some]
  rw [if_pos ⟨trivial, trivial⟩]
  cases rcpt
  · rfl
  · rfl

/-- A delivery receipt moves an individual message to at least `delivered`. -/
theorem plainView_insert_dv (Rd Dv : Finset String) (c : String) :
    plainView Rd (insert c Dv) = if Rd ≠ ∅ then Status.read else Status.delivered := by
  unfold plainView
  by_cases hRd : Rd ≠ ∅
  · rw [if_pos hRd, if_pos hRd]
  · rw [if_neg hRd, if_neg hRd, if_pos (Finset.insert_ne_empty c Dv)]

/-- A read receipt moves an individual message to `read`. -/
theorem plainView_insert_rd (Rd Dv : Finset String) (c : String) :
    plainView (insert c Rd) Dv = Status.read := by
  unfold plainView
  rw [if_pos (Finset.insert_ne_empty c Rd)]

/-- One receipt processed through `_set` against a tracked timestamp moves
the entry's abstract view from the pair of acknowledged-contact sets to the
pair extended by the receipt's contact, in every tracking mode. -/
theorem ds_receipt_step (st : DSState) (T : Nat) (e : DetailedStatus) (mode : TrackMode)
    (Rd Dv : Finset String) (c : String) (rcpt : RStatus) (w : Option Nat)
    (hT : alGet st.status_map T = some e)
    (hv : (e.str, e.grp) = viewOf mode Rd Dv) :
    ∃ e', alGet (DeliveryStatus.set st T rcpt.toStatus w (some c)).status_map T = some e'
      ∧ (e'.str, e'.grp)
          = viewOf mode (match rcpt with | RStatus.read => insert c Rd | RStatus.delivered => Rd)
              (match rcpt with | RStatus.delivered => insert c Dv | RStatus.read => Dv) := by
  have he1 := congrArg Prod.fst hv
  have he2 := congrArg Prod.snd hv
  cases mode with
  | big =>
    have hstr : e.str = Status.ignore_receipts := he1
    have hearly : statusOrder rcpt.toStatus ≤ statusOrder e.str := by
      rw [hstr]; cases rcpt <;> decide
    rw [ds_set_early st T rcpt.toStatus w (some c) e hT hearly]
    exact ⟨e, hT, hv⟩
  | plain =>
    have hstrv : e.str = plainView Rd Dv := he1
    have hgrp : e.grp = none := he2
    cases rcpt with
    | delivered =>
      by_cases hRd : Rd ≠ ∅
      · have hstr : e.str = Status.read := by
          rw [hstrv]; unfold plainView; rw [if_pos hRd]
        rw [ds_set_early st T RStatus.delivered.toStatus w (some c) e hT (by rw [hstr]; decide)]
        refine ⟨e, hT, ?_⟩
        show (e.str, e.grp) = (plainView Rd (insert c Dv), none)
        rw [hstr, hgrp, plainView_insert_dv, if_pos hRd]
      · by_cases hDv : Dv ≠ ∅
        · have hstr : e.str = Status.delivered := by
            rw [hstrv]; unfold plainView; rw [if_neg hRd, if_pos hDv]
          rw [ds_set_early st T RStatus.delivered.toStatus w (some c) e hT (by rw [hstr]; decide)]
          refine ⟨e, hT, ?_⟩
          show (e.str, e.grp) = (plainView Rd (insert c Dv), none)
          rw [hstr, hgrp, plainView_insert_dv, if_neg hRd]
        · have hstr : e.str = Status.sent := by
            rw [hstrv]; unfold plainView; rw [if_neg hRd, if_neg hDv]
          rw [ds_set_plain_step st T RStatus.delivered.toStatus w (some c) e hT hgrp (by rw [hstr]; decide)]
          refine ⟨_, by dsimp only; rw [alGet_alSet_self], ?_⟩
          show (Status.delivered, e.grp) = (plainView Rd (insert c Dv), none)
          rw [hgrp, plainView_insert_dv, if_neg hRd]
    | read =>
      by_cases hRd : Rd ≠ ∅
      · have hstr : e.str = Status.read := by
          rw [hstrv]; unfold plainView; rw [if_pos hRd]
        rw [ds_set_early st T RStatus.read.toStatus w (some c) e hT (by rw [hstr]; decide)]
        refine ⟨e, hT, ?_⟩
        show (e.str, e.grp) = (plainView (insert c Rd) Dv, none)
        rw [hstr, hgrp, plainView_insert_rd]
      · have hne : ¬ statusOrder RStatus.read.toStatus ≤ statusOrder e.str := by
          rw [hstrv]; unfold plainView; rw [if_neg hRd]
          split <;> decide
        rw [ds_set_plain_step st T RStatus.read.toStatus w (some c) e hT hgrp hne]
        refine ⟨_, by dsimp only; rw [alGet_alSet_self], ?_⟩
        show (Status.read, e.grp) = (plainView (insert c Rd) Dv, none)
        rw [hgrp, plainView_insert_rd]
  | group Gs =>
    have hstrv : e.str = (entryView Gs Rd Dv).1 := he1
    have hgrpv : e.grp = (entryView Gs Rd Dv).2 := he2
    by_cases h0 : Gs = ∅
    · have hstr : e.str = Status.sent := by
        rw [hstrv]; unfold entryView; rw [if_pos h0]
      have hgrp : e.grp = some ⟨∅, ∅⟩ := by
        rw [hgrpv]; unfold entryView; rw [if_pos h0]
      have hne : ¬ statusOrder rcpt.toStatus ≤ statusOrder e.str := by
        rw [hstr]; cases rcpt <;> decide
      have hsg : e.set_grp_memb_status c rcpt = (e, none) := by
        unfold DetailedStatus.set_grp_memb_status
        rw [hgrp]
        cases rcpt
        · dsimp only
          rw [if_neg (by simp)]
        · dsimp only
          rw [if_neg (by simp), if_neg (by simp)]
      rw [ds_set_group_step st T rcpt w c e ⟨∅, ∅⟩ hT hgrp hne, hsg]
      refine ⟨e, by dsimp only; rw [alGet_alSet_self], ?_⟩
      cases rcpt
      · show (e.str, e.grp) = entryView Gs Rd (insert c Dv)
        rw [hstr, hgrp]
        unfold entryView
        rw [if_pos h0]
      · show (e.str, e.grp) = entryView Gs (insert c Rd) Dv
        rw [hstr, hgrp]
        unfold entryView
        rw [if_pos h0]
    · by_cases h1 : Gs \ (Rd ∪ Dv) = ∅ ∧ (Gs ∩ Dv) \ Rd = ∅
      · have hstr : e.str = Status.read := by
          rw [hstrv]; unfold entryView; rw [if_neg h0, if_pos h1]
        have hgrp : e.grp = none := by
          rw [hgrpv]; unfold entryView; rw [if_neg h0, if_pos h1]
        have hearly : statusOrder rcpt.toStatus ≤ statusOrder e.str := by
          rw [hstr]; cases rcpt <;> decide
        rw [ds_set_early st T rcpt.toStatus w (some c) e hT hearly]
        refine ⟨e, hT, ?_⟩
        cases rcpt
        · show (e.str, e.grp) = entryView Gs Rd (insert c Dv)
          have hD : Gs \ (Rd ∪ insert c Dv) = ∅ := by
            rw [pendD_after_delivered, h1.1, Finset.erase_empty]
          have hR : (Gs ∩ insert c Dv) \ Rd = ∅ := by
            rw [pendR_after_delivered_not_mem Gs Rd Dv c (by rw [h1.1]; simp), h1.2]
          rw [hstr, hgrp]
          unfold entryView
          rw [if_neg h0, if_pos ⟨hD, hR⟩]
        · show (e.str, e.grp) = entryView Gs (insert c Rd) Dv
          have hD : Gs \ (insert c Rd ∪ Dv) = ∅ := by
            rw [pendD_after_read, h1.1, Finset.erase_empty]
          have hR : (Gs ∩ Dv) \ insert c Rd = ∅ := by
            rw [pendR_after_read, h1.2, Finset.erase_empty]
          rw [hstr, hgrp]
          unfold entryView
          rw [if_neg h0, if_pos ⟨hD, hR⟩]
      · by_cases h2 : Gs \ (Rd ∪ Dv) = ∅
        · have hRne : (Gs ∩ Dv) \ Rd ≠ ∅ := fun hr => h1 ⟨h2, hr⟩
          have hstr : e.str = Status.delivered := by
            rw [hstrv]; unfold entryView; rw [if_neg h0, if_neg h1, if_pos h2]
          have hgrp : e.grp = some ⟨Gs \ (Rd ∪ Dv), (Gs ∩ Dv) \ Rd⟩ := by
            rw [hgrpv]; unfold entryView; rw [if_neg h0, if_neg h1, if_pos h2]
          have hcD : c ∉ Gs \ (Rd ∪ Dv) := by rw [h2]; simp
          cases rcpt with
          | delivered =>
            rw [ds_set_early st T RStatus.delivered.toStatus w (some c) e hT (by rw [hstr]; decide)]
            refine ⟨e, hT, ?_⟩
            show (e.str, e.grp) = entryView Gs Rd (insert c Dv)
            have hD : Gs \ (Rd ∪ insert c Dv) = ∅ := by
              rw [pendD_after_delivered, h2, Finset.erase_empty]
            have hR : (Gs ∩ insert c Dv) \ Rd = (Gs ∩ Dv) \ Rd :=
              pendR_after_delivered_not_mem Gs Rd Dv c hcD
            rw [hstr, hgrp]
            unfold entryView
            rw [if_neg h0, if_neg (fun hand => hRne (by rw [← hR]; exact hand.2)),
                if_pos hD, hD, hR, h2]
          | read =>
            have hne : ¬ statusOrder RStatus.read.toStatus ≤ statusOrder e.str := by
              rw [hstr]; decide
            by_cases hcR : c ∈ (Gs ∩ Dv) \ Rd
            · by_cases hre : ((Gs ∩ Dv) \ Rd).erase c = ∅
              · have hsg : e.set_grp_memb_status c RStatus.read
                    = ({ e with grp := none }, some Status.read) := by
                  unfold DetailedStatus.set_grp_memb_status
                  rw [hgrp]
                  dsimp only
                  rw [if_pos hcR, if_pos ⟨h2, hre⟩]
                rw [ds_set_group_step st T RStatus.read w c e
                    ⟨Gs \ (Rd ∪ Dv), (Gs ∩ Dv) \ Rd⟩ hT hgrp hne, hsg]
                refine ⟨_, by dsimp only; rw [alGet_alSet_self], ?_⟩
                show (Status.read, (none : Option DelivReadConts)) = entryView Gs (insert c Rd) Dv
                have hD : Gs \ (insert c Rd ∪ Dv) = ∅ := by
                  rw [pendD_after_read, h2, Finset.erase_empty]
                have hR : (Gs ∩ Dv) \ insert c Rd = ∅ := by
                  rw [pendR_after_read]; exact hre
                unfold entryView
                rw [if_neg h0, if_pos ⟨hD, hR⟩]
              · have hsg : e.set_grp_memb_status c RStatus.read
                    = ({ e with grp := some ⟨Gs \ (Rd ∪ Dv), ((Gs ∩ Dv) \ Rd).erase c⟩ }, none) := by
                  unfold DetailedStatus.set_grp_memb_status
                  rw [hgrp]
                  dsimp only
                  rw [if_pos hcR, if_neg (fun hand => hre hand.2)]
                rw [ds_set_group_step st T RStatus.read w c e
                    ⟨Gs \ (Rd ∪ Dv), (Gs ∩ Dv) \ Rd⟩ hT hgrp hne, hsg]
                refine ⟨_, by dsimp only; rw [alGet_alSet_self], ?_⟩
                show (e.str, some (⟨Gs \ (Rd ∪ Dv), ((Gs ∩ Dv) \ Rd).erase c⟩ : DelivReadConts))
                    = entryView Gs (insert c Rd) Dv
                have hD : Gs \ (insert c Rd ∪ Dv) = ∅ := by
                  rw [pendD_after_read, h2, Finset.erase_empty]
                rw [hstr]
                unfold entryView
                rw [if_neg h0,
                    if_neg (fun hand => hre (by rw [← pendR_after_read]; exact hand.2)),
                    if_pos hD, hD, pendR_after_read, h2]
            · have hsg : e.set_grp_memb_status c RStatus.read = (e, none) := by
                unfold DetailedStatus.set_grp_memb_status
                rw [hgrp]
                dsimp only
                rw [if_neg hcR, if_neg hcD]
              rw [ds_set_group_step st T RStatus.read w c e
                  ⟨Gs \ (Rd ∪ Dv), (Gs ∩ Dv) \ Rd⟩ hT hgrp hne, hsg]
              refine ⟨e, by dsimp only; rw [alGet_alSet_self], ?_⟩
              show (e.str, e.grp) = entryView Gs (insert c Rd) Dv
              have hD : Gs \ (insert c Rd ∪ Dv) = ∅ := by
                rw [pendD_after_read, h2, Finset.erase_empty]
              have hR : (Gs ∩ Dv) \ insert c Rd = (Gs ∩ Dv) \ Rd := by
                rw [pendR_after_read, Finset.erase_eq_of_not_mem hcR]
              rw [hstr, hgrp]
              unfold entryView
              rw [if_neg h0, if_neg (fun hand => hRne (by rw [← hR]; exact hand.2)),
                  if_pos hD, hD, hR, h2]
        · have hstr : e.str = Status.sent := by
            rw [hstrv]; unfold entryView; rw [if_neg h0, if_neg h1, if_neg h2]
          have hgrp : e.grp = some ⟨Gs \ (Rd ∪ Dv), (Gs ∩ Dv) \ Rd⟩ := by
            rw [hgrpv]; unfold entryView; rw [if_neg h0, if_neg h1, if_neg h2]
          cases rcpt with
          | delivered =>
            have hne : ¬ statusOrder RStatus.delivered.toStatus ≤ statusOrder e.str := by
              rw [hstr]; decide
            by_cases hcD : c ∈ Gs \ (Rd ∪ Dv)
            · by_cases hde : (Gs \ (Rd ∪ Dv)).erase c = ∅
              · have hsg : e.set_grp_memb_status c RStatus.delivered
                    = ({ e with grp := some ⟨(Gs \ (Rd ∪ Dv)).erase c, insert c ((Gs ∩ Dv) \ Rd)⟩ }, some Status.delivered) := by
                  unfold DetailedStatus.set_grp_memb_status
                  rw [hgrp]
                  dsimp only
                  rw [if_pos hcD, if_pos hde]
                rw [ds_set_group_step st T RStatus.delivered w c e
                    ⟨Gs \ (Rd ∪ Dv), (Gs ∩ Dv) \ Rd⟩ hT hgrp hne, hsg]
                refine ⟨_, by dsimp only; rw [alGet_alSet_self], ?_⟩
                show (Status.delivered, some (⟨(Gs \ (Rd ∪ Dv)).erase c, insert c ((Gs ∩ Dv) \ Rd)⟩ : DelivReadConts))
                    = entryView Gs Rd (insert c Dv)
                have hD : Gs \ (Rd ∪ insert c Dv) = ∅ := by
                  rw [pendD_after_delivered]; exact hde
                have hR : (Gs ∩ insert c Dv) \ Rd = insert c ((Gs ∩ Dv) \ Rd) :=
                  pendR_after_delivered_mem Gs Rd Dv c hcD
                unfold entryView
                rw [if_neg h0,
                    if_neg (fun hand => Finset.insert_ne_empty c ((Gs ∩ Dv) \ Rd) (by rw [← hR]; exact hand.2)),
                    if_pos hD, hD, hR, hde]
              · have hsg : e.set_grp_memb_status c RStatus.delivered
                    = ({ e with grp := some ⟨(Gs \ (Rd ∪ Dv)).erase c, insert c ((Gs ∩ Dv) \ Rd)⟩ }, none) := by
                  unfold DetailedStatus.set_grp_memb_status
                  rw [hgrp]
                  dsimp only
                  rw [if_pos hcD, if_neg hde]
                rw [ds_set_group_step st T RStatus.delivered w c e
                    ⟨Gs \ (Rd ∪ Dv), (Gs ∩ Dv) \ Rd⟩ hT hgrp hne, hsg]
                refine ⟨_, by dsimp only; rw [alGet_alSet_self], ?_⟩
                show (e.str, some (⟨(Gs \ (Rd ∪ Dv)).erase c, insert c ((Gs ∩ Dv) \ Rd)⟩ : DelivReadConts))
                    = entryView Gs Rd (insert c Dv)
                have hD : Gs \ (Rd ∪ insert c Dv) = (Gs \ (Rd ∪ Dv)).erase c :=
                  pendD_after_delivered Gs Rd Dv c
                have hR : (Gs ∩ insert c Dv) \ Rd = insert c ((Gs ∩ Dv) \ Rd) :=
                  pendR_after_delivered_mem Gs Rd Dv c hcD
                rw [hstr]
                unfold entryView
                rw [if_neg h0, if_neg (fun hand => hde (by rw [← hD]; exact hand.1)),
                    if_neg (by rw [hD]; exact hde), hD, hR]
            · have hsg : e.set_grp_memb_status c RStatus.delivered = (e, none) := by
                unfold DetailedStatus.set_grp_memb_status
                rw [hgrp]
                dsimp only
                rw [if_neg hcD]
              rw [ds_set_group_step st T RStatus.delivered w c e
                  ⟨Gs \ (Rd ∪ Dv), (Gs ∩ Dv) \ Rd⟩ hT hgrp hne, hsg]
              refine ⟨e, by dsimp only; rw [alGet_alSet_self], ?_⟩
              show (e.str, e.grp) = entryView Gs Rd (insert c Dv)
              have hD : Gs \ (Rd ∪ insert c Dv) = Gs \ (Rd ∪ Dv) := by
                rw [pendD_after_delivered, Finset.erase_eq_of_not_mem hcD]
              have hR : (Gs ∩ insert c Dv) \ Rd = (Gs ∩ Dv) \ Rd :=
                pendR_after_delivered_not_mem Gs Rd Dv c hcD
              rw [hstr, hgrp]
              unfold entryView
              rw [if_neg h0, if_neg (fun hand => h2 (by rw [← hD]; exact hand.1)),
                  if_neg (by rw [hD]; exact h2), hD, hR]
          | read =>
            have hne : ¬ statusOrder RStatus.read.toStatus ≤ statusOrder e.str := by
              rw [hstr]; decide
            by_cases hcR : c ∈ (Gs ∩ Dv) \ Rd
            · have hcD : c ∉ Gs \ (Rd ∪ Dv) := by
                rcases Finset.mem_sdiff.mp hcR with ⟨hgd, hnr⟩
                rcases Finset.mem_inter.mp hgd with ⟨hg, hdv⟩
                intro hmem
                exact (Finset.mem_sdiff.mp hmem).2 (Finset.mem_union_right Rd hdv)
              have hsg : e.set_grp_memb_status c RStatus.read
                  = ({ e with grp := some ⟨Gs \ (Rd ∪ Dv), ((Gs ∩ Dv) \ Rd).erase c⟩ }, none) := by
                unfold DetailedStatus.set_grp_memb_status
                rw [hgrp]
                dsimp only
                rw [if_pos hcR, if_neg (fun hand => h2 hand.1)]
              rw [ds_set_group_step st T RStatus.read w c e
                  ⟨Gs \ (Rd ∪ Dv), (Gs ∩ Dv) \ Rd⟩ hT hgrp hne, hsg]
              refine ⟨_, by dsimp only; rw [alGet_alSet_self], ?_⟩
              show (e.str, some (⟨Gs \ (Rd ∪ Dv), ((Gs ∩ Dv) \ Rd).erase c⟩ : DelivReadConts))
                  = entryView Gs (insert c Rd) Dv
              have hD : Gs \ (insert c Rd ∪ Dv) = Gs \ (Rd ∪ Dv) := by
                rw [pendD_after_read, Finset.erase_eq_of_not_mem hcD]
              rw [hstr]
              unfold entryView
              rw [if_neg h0, if_neg (fun hand => h2 (by rw [← hD]; exact hand.1)),
                  if_neg (by rw [hD]; exact h2), hD, pendR_after_read]
            · by_cases hcD : c ∈ Gs \ (Rd ∪ Dv)
              · by_cases hde : (Gs \ (Rd ∪ Dv)).erase c = ∅
                · by_cases hRe : (Gs ∩ Dv) \ Rd = ∅
                  · have hsg : e.set_grp_memb_status c RStatus.read
                        = ({ e with grp := none }, some Status.read) := by
                      unfold DetailedStatus.set_grp_memb_status
                      rw [hgrp]
                      dsimp only
                      rw [if_neg hcR, if_pos hcD, if_neg (fun hand => hand.2 hRe), if_pos ⟨hde, hRe⟩]
                    rw [ds_set_group_step st T RStatus.read w c e
                        ⟨Gs \ (Rd ∪ Dv), (Gs ∩ Dv) \ Rd⟩ hT hgrp hne, hsg]
                    refine ⟨_, by dsimp only; rw [alGet_alSet_self], ?_⟩
                    show (Status.read, (none : Option DelivReadConts)) = entryView Gs (insert c Rd) Dv
                    have hD : Gs \ (insert c Rd ∪ Dv) = ∅ := by
                      rw [pendD_after_read]; exact hde
                    have hR : (Gs ∩ Dv) \ insert c Rd = ∅ := by
                      rw [pendR_after_read, hRe, Finset.erase_empty]
                    unfold entryView
                    rw [if_neg h0, if_pos ⟨hD, hR⟩]
                  · have hsg : e.set_grp_memb_status c RStatus.read
                        = ({ e with grp := some ⟨(Gs \ (Rd ∪ Dv)).erase c, (Gs ∩ Dv) \ Rd⟩ }, some Status.delivered) := by
                      unfold DetailedStatus.set_grp_memb_status
                      rw [hgrp]
                      dsimp only
                      rw [if_neg hcR, if_pos hcD, if_pos ⟨hde, hRe⟩]
                    rw [ds_set_group_step st T RStatus.read w c e
                        ⟨Gs \ (Rd ∪ Dv), (Gs ∩ Dv) \ Rd⟩ hT hgrp hne, hsg]
                    refine ⟨_, by dsimp only; rw [alGet_alSet_self], ?_⟩
                    show (Status.delivered, some (⟨(Gs \ (Rd ∪ Dv)).erase c, (Gs ∩ Dv) \ Rd⟩ : DelivReadConts))
                        = entryView Gs (insert c Rd) Dv
                    have hD : Gs \ (insert c Rd ∪ Dv) = ∅ := by
                      rw [pendD_after_read]; exact hde
                    have hR : (Gs ∩ Dv) \ insert c Rd = (Gs ∩ Dv) \ Rd := by
                      rw [pendR_after_read, Finset.erase_eq_of_not_mem hcR]
                    unfold entryView
                    rw [if_neg h0, if_neg (fun hand => hRe (by rw [← hR]; exact hand.2)),
                        if_pos hD, hD, hR, hde]
                · have hsg : e.set_grp_memb_status c RStatus.read
                      = ({ e with grp := some ⟨(Gs \ (Rd ∪ Dv)).erase c, (Gs ∩ Dv) \ Rd⟩ }, none) := by
                    unfold DetailedStatus.set_grp_memb_status
                    rw [hgrp]
                    dsimp only
                    rw [if_neg hcR, if_pos hcD, if_neg (fun hand => hde hand.1),
                        if_neg (fun hand => hde hand.1)]
                  rw [ds_set_group_step st T RStatus.read w c e
                      ⟨Gs \ (Rd ∪ Dv), (Gs ∩ Dv) \ Rd⟩ hT hgrp hne, hsg]
                  refine ⟨_, by dsimp only; rw [alGet_alSet_self], ?_⟩
                  show (e.str, some (⟨(Gs \ (Rd ∪ Dv)).erase c, (Gs ∩ Dv) \ Rd⟩ : DelivReadConts))
                      = entryView Gs (insert c Rd) Dv
                  have hD : Gs \ (insert c Rd ∪ Dv) = (Gs \ (Rd ∪ Dv)).erase c :=
                    pendD_after_read Gs Rd Dv c
                  have hR : (Gs ∩ Dv) \ insert c Rd = (Gs ∩ Dv) \ Rd := by
                    rw [pendR_after_read, Finset.erase_eq_of_not_mem hcR]
                  rw [hstr]
                  unfold entryView
                  rw [if_neg h0, if_neg (fun hand => hde (by rw [← hD]; exact hand.1)),
                      if_neg (by rw [hD]; exact hde), hD, hR]
              · have hsg : e.set_grp_memb_status c RStatus.read = (e, none) := by
                  unfold DetailedStatus.set_grp_memb_status
                  rw [hgrp]
                  dsimp only
                  rw [if_neg hcR, if_neg hcD]
                rw [ds_set_group_step st T RStatus.read w c e
                    ⟨Gs \ (Rd ∪ Dv), (Gs ∩ Dv) \ Rd⟩ hT hgrp hne, hsg]
                refine ⟨e, by dsimp only; rw [alGet_alSet_self], ?_⟩
                show (e.str, e.grp) = entryView Gs (insert c Rd) Dv
                have hD : Gs \ (insert c Rd ∪ Dv) = Gs \ (Rd ∪ Dv) := by
                  rw [pendD_after_read, Finset.erase_eq_of_not_mem hcD]
                have hR : (Gs ∩ Dv) \ insert c Rd = (Gs ∩ Dv) \ Rd := by
                  rw [pendR_after_read, Finset.erase_eq_of_not_mem hcR]
                rw [hstr, hgrp]
                unfold entryView
                rw [if_neg h0, if_neg (fun hand => h2 (by rw [← hD]; exact hand.1)),
                    if_neg (by rw [hD]; exact h2), hD, hR]

/-- `rdSet` over a cons. -/
theorem rdSet_cons (r : Receipt) (rest : List Receipt) :
    rdSet (r :: rest)
      = if r.rs = RStatus.read then insert r.contact (rdSet rest) else rdSet rest := by
  unfold rdSet
  by_cases h : r.rs = RStatus.read
  · rw [if_pos h, List.filter_cons_of_pos (by simp [h]), List.map_cons, List.toFinset_cons]
  · rw [if_neg h, List.filter_cons_of_neg (by simp [h])]

/-- `dvSet` over a cons. -/
theorem dvSet_cons (r : Receipt) (rest : List Receipt) :
    dvSet (r :: rest)
      = if r.rs = RStatus.delivered then insert r.contact (dvSet rest) else dvSet rest := by
  unfold dvSet
  by_cases h : r.rs = RStatus.delivered
  · rw [if_pos h, List.filter_cons_of_pos (by simp [h]), List.map_cons, List.toFinset_cons]
  · rw [if_neg h, List.filter_cons_of_neg (by simp [h])]

/-- Python `set.add` on the list model agrees with `insert` on the set view. -/
theorem pySetAdd_toFinset (l : List String) (x : String) :
    (pySetAdd l x).toFinset = insert x l.toFinset := by
  unfold pySetAdd
  split
  next h => rw [Finset.insert_eq_self.mpr (List.mem_toFinset.mpr h)]
  next h =>
    rw [List.toFinset_append]
    ext g
    simp [or_comm]

/-- The buffer entry a receipt fold accumulates holds exactly the receipt
lists' contact sets. -/
theorem bufFold_toFinsets (rs : List Receipt) :
    ∀ b : BufferEntry,
      (rs.foldl bufStep b).deliveredL.toFinset = b.deliveredL.toFinset ∪ dvSet rs
      ∧ (rs.foldl bufStep b).readL.toFinset = b.readL.toFinset ∪ rdSet rs := by
  induction rs with
  | nil =>
    intro b
    constructor <;> simp [dvSet, rdSet]
  | cons r rest ih =>
    intro b
    obtain ⟨rc, rrs, rw0⟩ := r
    cases rrs with
    | delivered =>
      have hih := ih (bufStep b ⟨rc, RStatus.delivered, rw0⟩)
      constructor
      · rw [List.foldl_cons, hih.1, dvSet_cons, if_pos rfl]
        show (pySetAdd b.deliveredL rc).toFinset ∪ dvSet rest = _
        rw [pySetAdd_toFinset, Finset.insert_union, Finset.union_insert]
      · rw [List.foldl_cons, hih.2, rdSet_cons, if_neg (by simp)]
        rfl
    | read =>
      have hih := ih (bufStep b ⟨rc, RStatus.read, rw0⟩)
      constructor
      · rw [List.foldl_cons, hih.1, dvSet_cons, if_neg (by simp)]
        rfl
      · rw [List.foldl_cons, hih.2, rdSet_cons, if_pos rfl]
        show (pySetAdd b.readL rc).toFinset ∪ rdSet rest = _
        rw [pySetAdd_toFinset, Finset.insert_union, Finset.union_insert]

/-- Unfolding one receipt of `applyReceipts`. -/
theorem applyReceipts_cons (st : DSState) (T : Nat) (r : Receipt) (rest : List Receipt) :
    applyReceipts st T (r :: rest)
      = applyReceipts (DeliveryStatus.on_receive_receipt st T r) T rest := rfl

/-- Receipts arriving on a tracked timestamp fold the view over their
contact sets. -/
theorem applyReceipts_view (T : Nat) (mode : TrackMode) (rs : List Receipt) :
    ∀ (st : DSState) (e : DetailedStatus) (Rd Dv : Finset String),
      alGet st.status_map T = some e →
      (e.str, e.grp) = viewOf mode Rd Dv →
      ∃ e', alGet (applyReceipts st T rs).status_map T = some e'
        ∧ (e'.str, e'.grp) = viewOf mode (Rd ∪ rdSet rs) (Dv ∪ dvSet rs) := by
  induction rs with
  | nil =>
    intro st e Rd Dv hT hv
    refine ⟨e, hT, ?_⟩
    rw [hv]
    have h1 : Rd ∪ rdSet [] = Rd := by simp [rdSet]
    have h2 : Dv ∪ dvSet [] = Dv := by simp [dvSet]
    rw [h1, h2]
  | cons r rest ih =>
    intro st e Rd Dv hT hv
    obtain ⟨rc, rrs, rw0⟩ := r
    have hrr : applyReceipts st T (⟨rc, rrs, rw0⟩ :: rest)
        = applyReceipts (DeliveryStatus.set st T rrs.toStatus (some rw0) (some rc)) T rest := by
      rw [applyReceipts_cons, on_receive_tracked st T ⟨rc, rrs, rw0⟩ e hT]
    rw [hrr]
    rcases ds_receipt_step st T e mode Rd Dv rc rrs (some rw0) hT hv with ⟨e1, hT1, hv1⟩
    cases rrs with
    | delivered =>
      rcases ih _ e1 _ _ hT1 hv1 with ⟨e2, hT2, hv2⟩
      refine ⟨e2, hT2, ?_⟩
      rw [hv2]
      rw [rdSet_cons, if_neg (by simp), dvSet_cons, if_pos rfl]
      rw [Finset.union_insert]
      show viewOf mode (Rd ∪ rdSet rest) (insert rc Dv ∪ dvSet rest) = _
      rw [Finset.insert_union]
    | read =>
      rcases ih _ e1 _ _ hT1 hv1 with ⟨e2, hT2, hv2⟩
      refine ⟨e2, hT2, ?_⟩
      rw [hv2]
      rw [rdSet_cons, if_pos rfl, dvSet_cons, if_neg (by simp)]
      rw [Finset.union_insert]
      show viewOf mode (insert rc Rd ∪ rdSet rest) (Dv ∪ dvSet rest) = _
      rw [Finset.insert_union]

/-- Replaying the buffered `delivered` contacts folds the view over their
set. -/
theorem foldl_set_delivered_view (T : Nat) (mode : TrackMode) (cs : List String) :
    ∀ (st : DSState) (e : DetailedStatus) (Rd Dv : Finset String),
      alGet st.status_map T = some e →
      (e.str, e.grp) = viewOf mode Rd Dv →
      ∃ e', alGet ((cs.foldl
            (fun acc c => DeliveryStatus.set acc T Status.delivered none (some c)) st)).status_map T
          = some e'
        ∧ (e'.str, e'.grp) = viewOf mode Rd (Dv ∪ cs.toFinset) := by
  induction cs with
  | nil =>
    intro st e Rd Dv hT hv
    refine ⟨e, hT, ?_⟩
    rw [hv]
    have h2 : Dv ∪ ([] : List String).toFinset = Dv := by simp
    rw [h2]
  | cons c rest ih =>
    intro st e Rd Dv hT hv
    rcases ds_receipt_step st T e mode Rd Dv c RStatus.delivered none hT hv with ⟨e1, hT1, hv1⟩
    rw [List.foldl_cons]
    rcases ih _ e1 _ _ hT1 hv1 with ⟨e2, hT2, hv2⟩
    refine ⟨e2, hT2, ?_⟩
    rw [hv2]
    rw [List.toFinset_cons, Finset.union_insert]
    show viewOf mode Rd (insert c Dv ∪ rest.toFinset) = _
    rw [Finset.insert_union]

/-- Replaying the buffered `read` contacts folds the view over their set. -/
theorem foldl_set_read_view (T : Nat) (mode : TrackMode) (cs : List String) :
    ∀ (st : DSState) (e : DetailedStatus) (Rd Dv : Finset String),
      alGet st.status_map T = some e →
      (e.str, e.grp) = viewOf mode Rd Dv →
      ∃ e', alGet ((cs.foldl
            (fun acc c => DeliveryStatus.set acc T Status.read none (some c)) st)).status_map T
          = some e'
        ∧ (e'.str, e'.grp) = viewOf mode (Rd ∪ cs.toFinset) Dv := by
  induction cs with
  | nil =>
    intro st e Rd Dv hT hv
    refine ⟨e, hT, ?_⟩
    rw [hv]
    have h1 : Rd ∪ ([] : List String).toFinset = Rd := by simp
    rw [h1]
  | cons c rest ih =>
    intro st e Rd Dv hT hv
    rcases ds_receipt_step st T e mode Rd Dv c RStatus.read none hT hv with ⟨e1, hT1, hv1⟩
    rw [List.foldl_cons]
    rcases ih _ e1 _ _ hT1 hv1 with ⟨e2, hT2, hv2⟩
    refine ⟨e2, hT2, ?_⟩
    rw [hv2]
    rw [List.toFinset_cons, Finset.union_insert]
    show viewOf mode (insert c Rd ∪ rest.toFinset) Dv = _
    rw [Finset.insert_union]

/-- `_set` on an untracked timestamp installs a fresh entry. -/
theorem ds_set_on_empty (bufm : List (Nat × BufferEntry)) (T : Nat) (status : Status)
    (h : ¬ statusOrder status ≤ statusOrder Status.unset) :
    DeliveryStatus.set ⟨[], bufm⟩ T status none none
      = ⟨[(T, ⟨status, 0, none⟩)], bufm⟩ := by
  unfold DeliveryStatus.set
  dsimp only
  simp only [alGet_nil, Option.getD_none, Option.isSome_none, Bool.false_eq_true, if_false]
  rw [if_neg h]
  rw [if_neg (by simp)]
  dsimp only
  rw [List.nil_append, alSet_single_self]

/-- Tracking a fresh timestamp with no group member list. -/
theorem trackSent_plain (bufm : List (Nat × BufferEntry)) (T : Nat) :
    trackSent ⟨[], bufm⟩ T none = ⟨[(T, ⟨Status.sent, 0, none⟩)], bufm⟩ := by
  unfold trackSent DeliveryStatus.on_sending_message
  rw [ds_set_on_empty bufm T Status.sending (by decide)]
  show DeliveryStatus.on_sending_done_sent ⟨[(T, ⟨Status.sending, 0, none⟩)], bufm⟩ T = _
  unfold DeliveryStatus.on_sending_done_sent
  dsimp only
  rw [if_neg (by rw [alGet_single_self]; simp)]
  rw [ds_set_plain_step ⟨[(T, ⟨Status.sending, 0, none⟩)], bufm⟩ T Status.sent none none
      ⟨Status.sending, 0, none⟩ (alGet_single_self T _) rfl (by decide)]
  rw [alSet_single_self]
  rfl

/-- Tracking a fresh timestamp with a group of at most 15 members. -/
theorem trackSent_group (bufm : List (Nat × BufferEntry)) (T : Nat) (gm : List String)
    (hlen : ¬ 15 < gm.length) :
    trackSent ⟨[], bufm⟩ T (some gm)
      = ⟨[(T, ⟨Status.sent, 0, some ⟨gm.toFinset, ∅⟩⟩)], bufm⟩ := by
  unfold trackSent DeliveryStatus.on_sending_message
  rw [ds_set_on_empty bufm T Status.sending (by decide)]
  show DeliveryStatus.on_sending_done_sent
      (DeliveryStatus.set_group_members ⟨[(T, ⟨Status.sending, 0, none⟩)], bufm⟩ T gm) T = _
  unfold DeliveryStatus.set_group_members
  rw [if_neg hlen]
  dsimp only
  rw [alGet_single_self]
  dsimp only
  rw [alSet_single_self]
  show DeliveryStatus.on_sending_done_sent
      ⟨[(T, ⟨Status.sending, 0, some ⟨gm.toFinset, ∅⟩⟩)], bufm⟩ T = _
  unfold DeliveryStatus.on_sending_done_sent
  dsimp only
  rw [if_neg (by rw [alGet_single_self]; simp)]
  rw [ds_set_present ⟨[(T, ⟨Status.sending, 0, some ⟨gm.toFinset, ∅⟩⟩)], bufm⟩ T Status.sent
      none none ⟨Status.sending, 0, some ⟨gm.toFinset, ∅⟩⟩ (alGet_single_self T _),
      if_neg (by show ¬ statusOrder Status.sent ≤ statusOrder Status.sending; decide)]
  dsimp only
  rw [if_neg (by simp)]
  dsimp only
  rw [alSet_single_self]
  rfl

/-- Tracking a fresh timestamp with an over-large group collapses to
`ignore_receipts`. -/
theorem trackSent_big (bufm : List (Nat × BufferEntry)) (T : Nat) (gm : List String)
    (hlen : 15 < gm.length) :
    trackSent ⟨[], bufm⟩ T (some gm)
      = ⟨[(T, ⟨Status.ignore_receipts, 0, none⟩)], bufm⟩ := by
  unfold trackSent DeliveryStatus.on_sending_message
  rw [ds_set_on_empty bufm T Status.sending (by decide)]
  show DeliveryStatus.on_sending_done_sent
      (DeliveryStatus.set_group_members ⟨[(T, ⟨Status.sending, 0, none⟩)], bufm⟩ T gm) T = _
  unfold DeliveryStatus.set_group_members
  rw [if_pos hlen]
  rw [ds_set_plain_step ⟨[(T, ⟨Status.sending, 0, none⟩)], bufm⟩ T Status.ignore_receipts none
      none ⟨Status.sending, 0, none⟩ (alGet_single_self T _) rfl (by decide)]
  dsimp only
  rw [alSet_single_self]
  show DeliveryStatus.on_sending_done_sent
      ⟨[(T, ⟨Status.ignore_receipts, 0, none⟩)], bufm⟩ T = _
  unfold DeliveryStatus.on_sending_done_sent
  dsimp only
  rw [if_neg (by rw [alGet_single_self]; simp)]
  rw [ds_set_early ⟨[(T, ⟨Status.ignore_receipts, 0, none⟩)], bufm⟩ T Status.sent none none
      ⟨Status.ignore_receipts, 0, none⟩ (alGet_single_self T _) (by decide)]

/-- Receipts for an untracked timestamp only accumulate in its buffer
entry. -/
theorem applyReceipts_untracked (T : Nat) (rs : List Receipt) :
    ∀ b : BufferEntry,
      applyReceipts ⟨[], [(T, b)]⟩ T rs = ⟨[], [(T, rs.foldl bufStep b)]⟩ := by
  induction rs with
  | nil => intro b; rfl
  | cons r rest ih =>
    intro b
    have hstep : DeliveryStatus.on_receive_receipt ⟨[], [(T, b)]⟩ T r
        = ⟨[], [(T, bufStep b r)]⟩ := by
      show DeliveryStatus.buffer_receipt ⟨[], [(T, b)]⟩ T r.rs r.contact
          = ⟨[], [(T, bufStep b r)]⟩
      unfold DeliveryStatus.buffer_receipt
      dsimp only
      rw [alGet_single_self]
      obtain ⟨rc, rrs, rw0⟩ := r
      cases rrs
      · dsimp only [bufStep]
        rw [alSet_single_self]
        rfl
      · dsimp only [bufStep]
        rw [alSet_single_self]
        rfl
    rw [applyReceipts_cons, hstep, ih (bufStep b r), List.foldl_cons]

/-- From the fresh tracker, a receipt list lands entirely in the buffer. -/
theorem applyReceipts_from_empty (T : Nat) (r : Receipt) (rest : List Receipt) :
    applyReceipts emptyDS T (r :: rest) = ⟨[], [(T, (r :: rest).foldl bufStep {})]⟩ := by
  have hstep : DeliveryStatus.on_receive_receipt emptyDS T r = ⟨[], [(T, bufStep {} r)]⟩ := by
    obtain ⟨rc, rrs, rw0⟩ := r
    cases rrs <;> rfl
  rw [applyReceipts_cons, hstep, applyReceipts_untracked T rest (bufStep {} r), List.foldl_cons]

/-- Tracking a fresh timestamp yields an entry whose view is the mode's
view at empty acknowledged sets. -/
theorem trackSent_entry (bufm : List (Nat × BufferEntry)) (T : Nat)
    (gm : Option (List String)) :
    ∃ e0, trackSent ⟨[], bufm⟩ T gm = ⟨[(T, e0)], bufm⟩
      ∧ (e0.str, e0.grp) = viewOf (modeOf gm) ∅ ∅ := by
  cases gm with
  | none =>
    refine ⟨⟨Status.sent, 0, none⟩, trackSent_plain bufm T, ?_⟩
    show (Status.sent, (none : Option DelivReadConts)) = (plainView ∅ ∅, none)
    unfold plainView
    rw [if_neg (by simp), if_neg (by simp)]
  | some l =>
    by_cases hlen : 15 < l.length
    · refine ⟨⟨Status.ignore_receipts, 0, none⟩, trackSent_big bufm T l hlen, ?_⟩
      show (Status.ignore_receipts, (none : Option DelivReadConts)) = viewOf (modeOf (some l)) ∅ ∅
      unfold modeOf
      dsimp only
      rw [if_pos hlen]
      rfl
    · refine ⟨⟨Status.sent, 0, some ⟨l.toFinset, ∅⟩⟩, trackSent_group bufm T l hlen, ?_⟩
      show (Status.sent, some (⟨l.toFinset, ∅⟩ : DelivReadConts)) = viewOf (modeOf (some l)) ∅ ∅
      unfold modeOf
      dsimp only
      rw [if_neg hlen]
      show _ = entryView l.toFinset ∅ ∅
      unfold entryView
      by_cases h0 : l.toFinset = ∅
      · rw [if_pos h0, h0]
      · have hD : l.toFinset \ (∅ ∪ ∅) = l.toFinset := by simp
        rw [if_neg h0, if_neg (fun hand => h0 (by rw [← hD]; exact hand.1)),
            if_neg (by rw [hD]; exact h0), hD]
        have hR : (l.toFinset ∩ ∅) \ ∅ = (∅ : Finset String) := by simp
        rw [hR]

/-- C8: for every receipt list naming a timestamp `T` that arrives before
`T` is tracked, buffering the receipts and replaying them through
`process_buffered_receipts` once `T` becomes known (tracked as an
individual or group send) yields the same final status string for `T` as
if the same receipts had arrived, in their original arrival order, after
`T` was tracked. -/
theorem C8_buffered_replay_same_status (T : Nat) (gm : Option (List String))
    (rs : List Receipt) :
    DeliveryStatus.get_str (scenarioBuffered T gm rs) T
      = DeliveryStatus.get_str (scenarioDirect T gm rs) T := by
  cases rs with
  | nil =>
    rcases trackSent_entry [] T gm with ⟨e0, htr, hv0⟩
    show DeliveryStatus.get_str
        (DeliveryStatus.process_buffered_receipts (trackSent emptyDS T gm) T) T
      = DeliveryStatus.get_str (trackSent emptyDS T gm) T
    have htr' : trackSent emptyDS T gm = ⟨[(T, e0)], []⟩ := htr
    rw [htr']
    rfl
  | cons r rest =>
    rcases trackSent_entry [] T gm with ⟨e0, htrD, hv0⟩
    have htrD' : trackSent emptyDS T gm = ⟨[(T, e0)], []⟩ := htrD
    rcases applyReceipts_view T (modeOf gm) (r :: rest) ⟨[(T, e0)], []⟩ e0 ∅ ∅
        (by dsimp only; rw [alGet_single_self]) hv0 with ⟨e3, hT3, hv3⟩
    rcases trackSent_entry [(T, (r :: rest).foldl bufStep {})] T gm with ⟨e1, htrB, hv1⟩
    have hbuf : applyReceipts emptyDS T (r :: rest)
        = ⟨[], [(T, (r :: rest).foldl bufStep {})]⟩ := applyReceipts_from_empty T r rest
    have hPre : trackSent (applyReceipts emptyDS T (r :: rest)) T gm
        = ⟨[(T, e1)], [(T, (r :: rest).foldl bufStep {})]⟩ := by
      rw [hbuf]; exact htrB
    have hproc : scenarioBuffered T gm (r :: rest)
        = (let st1 := ((r :: rest).foldl bufStep {}).deliveredL.foldl
              (fun acc c => DeliveryStatus.set acc T Status.delivered none (some c))
              ⟨[(T, e1)], [(T, (r :: rest).foldl bufStep {})]⟩
           let st2 := ((r :: rest).foldl bufStep {}).readL.foldl
              (fun acc c => DeliveryStatus.set acc T Status.read none (some c)) st1
           { st2 with buffered := alErase st2.buffered T }) := by
      show DeliveryStatus.process_buffered_receipts
          (trackSent (applyReceipts emptyDS T (r :: rest)) T gm) T = _
      rw [hPre]
      unfold DeliveryStatus.process_buffered_receipts
      dsimp only
      rw [alGet_single_self]
    rcases foldl_set_delivered_view T (modeOf gm) ((r :: rest).foldl bufStep {}).deliveredL
        ⟨[(T, e1)], [(T, (r :: rest).foldl bufStep {})]⟩ e1 ∅ ∅
        (by dsimp only; rw [alGet_single_self]) hv1 with ⟨e4, hT4, hv4⟩
    rcases foldl_set_read_view T (modeOf gm) ((r :: rest).foldl bufStep {}).readL _ e4 ∅
        (∅ ∪ ((r :: rest).foldl bufStep {}).deliveredL.toFinset) hT4 hv4 with ⟨e5, hT5, hv5⟩
    have hsets := bufFold_toFinsets (r :: rest) {}
    have hdv : ((r :: rest).foldl bufStep {}).deliveredL.toFinset = dvSet (r :: rest) := by
      rw [hsets.1]; simp
    have hrd : ((r :: rest).foldl bufStep {}).readL.toFinset = rdSet (r :: rest) := by
      rw [hsets.2]; simp
    rw [hrd, hdv] at hv5
    have hBufStr : DeliveryStatus.get_str (scenarioBuffered T gm (r :: rest)) T = e5.str := by
      rw [hproc]
      dsimp only
      rw [get_str_eq]
      dsimp only
      rw [hT5]
      rfl
    have hDirStr : DeliveryStatus.get_str (scenarioDirect T gm (r :: rest)) T = e3.str := by
      show DeliveryStatus.get_str (applyReceipts (trackSent emptyDS T gm) T (r :: rest)) T
          = e3.str
      rw [htrD', get_str_eq, hT3]
      rfl
    have hstrs : e5.str = e3.str := by
      have h5 := congrArg Prod.fst hv5
      have h3 := congrArg Prod.fst hv3
      exact h5.trans h3.symm
    rw [hBufStr, hDirStr, hstrs]
